import Mathlib

/-!
Verification development for the zoom-youtube-uploader repository.

The repository drives two browser state machines: a recording locator and
downloader for the Zoom web UI (src/zoom_client.py) and an upload wizard
driver for the YouTube Studio web UI (src/youtube_client.py), glued by a
CLI orchestrator (src/cli.py) with a JSON ledger and a flexible date
parsing helper (src/utils.py).

This file shallowly embeds the pure decision logic of those drivers:

- text handling is modelled on ASCII characters: Python str.strip,
  str.lower, str.isdigit, str.startswith, substring membership and
  str.split are reimplemented structurally over List Char;
- the two regular expressions of zoom_client.list_recordings are embedded
  as decidable matching functions with existential backtracking semantics;
- browser pages are modelled as snapshots of the query results the code
  inspects: element visibility, link hrefs, body text;
- fallible operations return Except or Option, and the file system is an
  association list from paths to contents.
-/

namespace ZYU

/-! ## ASCII character helpers modelling the Python str primitives -/

/-- Decimal digit test, used to embed the regex class backslash-d and
Python str.isdigit on ASCII text. -/
def isDigitC (c : Char) : Bool := '0' ≤ c && c ≤ '9'

/-- Whitespace test on ASCII characters: the characters stripped by Python
str.strip and matched by the regex class backslash-s. -/
def isSpaceC (c : Char) : Bool :=
  c = ' ' || c = '\t' || c = '\n' || c = '\x0d' || c = '\x0b' || c = '\x0c'

/-- ASCII lowercasing of one character, modelling Python str.lower. -/
def asciiLower (c : Char) : Char :=
  if 'A' ≤ c && c ≤ 'Z' then Char.ofNat (c.toNat + 32) else c

/-- Lowercase a character list, modelling Python str.lower. -/
def lowerL (l : List Char) : List Char := l.map asciiLower

/-- Strip whitespace from both ends, modelling Python str.strip. -/
def stripL (l : List Char) : List Char :=
  ((l.dropWhile isSpaceC).reverse.dropWhile isSpaceC).reverse

/-- Does the first list occur as a prefix of the second? -/
def isPrefixL : List Char → List Char → Bool
  | [], _ => true
  | _ :: _, [] => false
  | p :: ps, c :: cs => p = c && isPrefixL ps cs

/-- Does the first list occur as a contiguous substring of the second?
Models the Python expression needle in hay on strings. -/
def isInfixL (needle : List Char) : List Char → Bool
  | [] => needle.isEmpty
  | c :: cs => isPrefixL needle (c :: cs) || isInfixL needle cs

/-- Split a character list at newline characters, modelling
Python str.split with separator newline. -/
def splitNlAux (cur : List Char) : List Char → List (List Char)
  | [] => [cur.reverse]
  | c :: cs => if c = '\n' then cur.reverse :: splitNlAux [] cs else splitNlAux (c :: cur) cs

/-! ## String wrappers -/

/-- Python str.strip on a string. -/
def pyStrip (s : String) : String := ⟨stripL s.toList⟩

/-- Python str.lower on a string. -/
def pyLower (s : String) : String := ⟨lowerL s.toList⟩

/-- Python str.isdigit on a string (ASCII): nonempty and all digits. -/
def pyIsDigit (s : String) : Bool := !s.toList.isEmpty && s.toList.all isDigitC

/-- Python str.startswith. -/
def pyStartsWith (pre s : String) : Bool := isPrefixL pre.toList s.toList

/-- Python substring membership needle in hay. -/
def substrB (needle hay : String) : Bool := isInfixL needle.toList hay.toList

/-- Decimal rendering of a natural number, as Python str(n) for n that are
nonnegative ints. -/
def natStr (n : Nat) : String := ⟨Nat.toDigits 10 n⟩

/-- Python format specifier 02d: zero-pad to width two. -/
def pad2 (n : Nat) : String := if n < 10 then "0" ++ natStr n else natStr n

/-- Zero-pad to width four, as in the year part of date.isoformat. -/
def pad4 (n : Nat) : String :=
  if n < 10 then "000" ++ natStr n
  else if n < 100 then "00" ++ natStr n
  else if n < 1000 then "0" ++ natStr n
  else natStr n

/-! ## The two regexes of zoom_client.list_recordings

date_line_re is
  (Jan|Feb|Mar|Apr|May|Jun|Jul|Aug|Sep|Oct|Nov|Dec) backslash-s+
  backslash-d 1-to-2 comma backslash-s+ backslash-d 4
  or backslash-d 1-to-2 slash backslash-d 1-to-2 slash backslash-d 4,
used with re.search (match anywhere); duration_re is
  start backslash-d 2 colon backslash-d 2 colon backslash-d 2 end,
used with re.match and an end anchor (full match). -/

/-- The twelve month abbreviations of the date regex alternation. -/
def monthsL : List (List Char) :=
  [['J', 'a', 'n'], ['F', 'e', 'b'], ['M', 'a', 'r'], ['A', 'p', 'r'], ['M', 'a', 'y'],
   ['J', 'u', 'n'], ['J', 'u', 'l'], ['A', 'u', 'g'], ['S', 'e', 'p'], ['O', 'c', 't'],
   ['N', 'o', 'v'], ['D', 'e', 'c']]

/-- Consume an exact literal prefix, returning the remainder. -/
def dropPfx : List Char → List Char → Option (List Char)
  | [], cs => some cs
  | _ :: _, [] => none
  | p :: ps, c :: cs => if p = c then dropPfx ps cs else none

/-- Consume exactly n digit characters. -/
def digitsN : Nat → List Char → Option (List Char)
  | 0, cs => some cs
  | _ + 1, [] => none
  | n + 1, c :: cs => if isDigitC c then digitsN n cs else none

/-- Consume one literal character. -/
def litC (ch : Char) : List Char → Option (List Char)
  | [] => none
  | c :: cs => if c = ch then some cs else none

/-- Consume one or more whitespace characters (maximal munch; the regex
continues with a digit, so maximal munch is the only viable parse). -/
def spaces1 : List Char → Option (List Char)
  | [] => none
  | c :: cs => if isSpaceC c then some (cs.dropWhile isSpaceC) else none

/-- Does the month-name alternative of date_line_re match at the head of
the input? Backtracking over the one-or-two digit day is an explicit
existential over both lengths. -/
def matchMonthDateAt (cs : List Char) : Bool :=
  monthsL.any fun mon =>
    match dropPfx mon cs with
    | none => false
    | some r1 =>
      match spaces1 r1 with
      | none => false
      | some r2 =>
        [1, 2].any fun a =>
          (((digitsN a r2).bind (litC ',')).bind spaces1).bind (digitsN 4) |>.isSome

/-- Does the numeric slash alternative of date_line_re match at the head of
the input? -/
def matchNumDateAt (cs : List Char) : Bool :=
  [1, 2].any fun a => [1, 2].any fun b =>
    ((((digitsN a cs).bind (litC '/')).bind (digitsN b)).bind (litC '/')).bind (digitsN 4)
      |>.isSome

/-- Either alternative of date_line_re matches at the head of the input. -/
def dateAt (cs : List Char) : Bool := matchMonthDateAt cs || matchNumDateAt cs

/-- re.search of date_line_re: some suffix position matches. -/
def dateSearch : List Char → Bool
  | [] => false
  | c :: cs => dateAt (c :: cs) || dateSearch cs

/-- Full match of duration_re: exactly the shape HH:MM:SS. -/
def durationFull (l : List Char) : Bool :=
  match l with
  | [h1, h2, c1, m1, m2, c2, s1, s2] =>
    isDigitC h1 && isDigitC h2 && c1 = ':' && isDigitC m1 && isDigitC m2 && c2 = ':'
      && isDigitC s1 && isDigitC s2
  | _ => false

/-- date_line_re.search on a string line. -/
def dateLineB (l : String) : Bool := dateSearch l.toList

/-- duration_re.match (full) on a string line. -/
def durationB (l : String) : Bool := durationFull l.toList

/-- The topic test of the classification loop: not purely numeric and
longer than three characters. -/
def topicOk (l : String) : Bool := !pyIsDigit l && l.length > 3

/-! ## list_recordings: line classification, date filter, deduplication -/

/-- One listing-page entry link: its rendered inner text and href. -/
structure PageEntry where
  text : String
  href : String
deriving DecidableEq, Repr

/-- The record produced by the locator (src/models.py ZoomRecording). -/
structure ZoomRecording where
  topic : String
  date : String
  duration : String
  file_size : String
  download_url : String
deriving DecidableEq, Repr

/-- The classification loop of list_recordings: one pass over the lines,
assigning the date, duration and topic fields by content. Empty string
stands for a still-unset field, as in the Python code where the empty
string is falsy. -/
def classifyGo : String → String → String → List String → String × String × String
  | dt, du, tp, [] => (dt, du, tp)
  | dt, du, tp, l :: ls =>
    if dt = "" && dateLineB l then classifyGo l du tp ls
    else if du = "" && durationB l then classifyGo dt l tp ls
    else if tp = "" && topicOk l then classifyGo dt du l ls
    else classifyGo dt du tp ls

/-- Classify the cleaned lines of one entry, defaulting the topic to
Unknown, as in list_recordings. -/
def classifyLines (ls : List String) : String × String × String :=
  let r := classifyGo "" "" "" ls
  (r.1, r.2.1, if r.2.2 = "" then "Unknown" else r.2.2)

/-- The non-empty stripped lines of an entry text: the Python list
comprehension over text.strip().split of newline. -/
def entryLines (text : String) : List String :=
  ((splitNlAux [] (pyStrip text).toList).map fun l => (⟨stripL l⟩ : String)).filter
    fun l => l ≠ ""

/-- The five pre-rendered date patterns list_recordings builds for the
requested date (month abbreviation with plain and zero-padded day,
numeric slash form plain and zero-padded, ISO form). -/
def date_patterns (y m d : Nat) : List String :=
  let mon := match m with
    | 1 => "Jan" | 2 => "Feb" | 3 => "Mar" | 4 => "Apr" | 5 => "May" | 6 => "Jun"
    | 7 => "Jul" | 8 => "Aug" | 9 => "Sep" | 10 => "Oct" | 11 => "Nov" | 12 => "Dec"
    | _ => ""
  [ mon ++ " " ++ natStr d ++ ", " ++ natStr y,
    mon ++ " " ++ pad2 d ++ ", " ++ natStr y,
    natStr m ++ "/" ++ natStr d ++ "/" ++ natStr y,
    pad2 m ++ "/" ++ pad2 d ++ "/" ++ natStr y,
    pad4 y ++ "-" ++ pad2 m ++ "-" ++ pad2 d ]

/-- Process one entry of the listing page, up to but excluding the
deduplication step: the short-entry guard, the Press-Shift line cleaning,
the content classification and the date filter of list_recordings. -/
def processEntry (pats : List String) (e : PageEntry) : Option ZoomRecording :=
  let lines := entryLines e.text
  if lines.length ≤ 2 then none
  else
    let lines := lines.filter fun l => !pyStartsWith "Press Shift" l
    let c := classifyLines lines
    if pats.any fun p => substrB p c.1 then
      some ⟨c.2.2, c.1, c.2.1, "", e.href⟩
    else none

/-- The deduplication key of list_recordings: the f-string joining topic
and date text with a vertical bar. -/
def recordKey (r : ZoomRecording) : String := r.topic ++ "|" ++ r.date

/-- The main loop of list_recordings: process entries in order, keeping a
seen set of deduplication keys. -/
def listRecordingsGo (pats : List String) (seen : List String) :
    List PageEntry → List ZoomRecording
  | [] => []
  | e :: es =>
    match processEntry pats e with
    | none => listRecordingsGo pats seen es
    | some r =>
      if recordKey r ∈ seen then listRecordingsGo pats seen es
      else r :: listRecordingsGo pats (recordKey r :: seen) es

/-- list_recordings for a requested date over the scraped entry links. -/
def list_recordings (y m d : Nat) (entries : List PageEntry) : List ZoomRecording :=
  listRecordingsGo (date_patterns y m d) [] entries

/-- The deduplication stage in isolation, over an already filtered record
sequence. -/
def dedupRecords (seen : List String) : List ZoomRecording → List ZoomRecording
  | [] => []
  | r :: rs =>
    if recordKey r ∈ seen then dedupRecords seen rs
    else r :: dedupRecords (recordKey r :: seen) rs

/-! ## Python str.split with a multi-character separator -/

/-- Python str.split with a nonempty separator: leftmost non-overlapping
occurrences. Fuel is the input length; each step consumes at least one
character, so the fuel never runs out on the initial call. -/
def splitSepAux (sep : List Char) : Nat → List Char → List Char → List (List Char)
  | _, cur, [] => [cur.reverse]
  | 0, cur, l => [cur.reverse ++ l]
  | fuel + 1, cur, c :: cs =>
    if isPrefixL sep (c :: cs) then
      cur.reverse :: splitSepAux sep fuel [] ((c :: cs).drop sep.length)
    else splitSepAux sep fuel (c :: cur) cs

/-- Python s.split(sep) for nonempty sep, as a list of strings. -/
def pySplit (s sep : String) : List String :=
  (splitSepAux sep.toList s.toList.length [] s.toList).map fun l => (⟨l⟩ : String)

/-- Python s.split(sep)[-1]. The split list is never empty, so the default
is unreachable. -/
def lastPart (s sep : String) : String := (pySplit s sep).getLastD ""

/-- Python s.split(sep)[0]. -/
def firstPart (s sep : String) : String := (pySplit s sep).headD ""

/-! ## youtube_client._extract_video_id -/

/-- The URL-fallback half of _extract_video_id: parse the current page URL
for a /video/ segment, else the sentinel. -/
def urlVideoId (pageUrl : String) : String :=
  if substrB "/video/" pageUrl then firstPart (lastPart pageUrl "/video/") "/"
  else "unknown"

/-- _extract_video_id over a page snapshot: links is the list of anchor
hrefs in document order, pageUrl the current page URL. The locator picks
the first anchor whose href contains youtu.be or youtube.com/video; a
missing link raises inside the first try block, which is caught, falling
through to the URL parse. -/
def extract_video_id (links : List String) (pageUrl : String) : String :=
  match links.find? fun h => substrB "youtu.be" h || substrB "youtube.com/video" h with
  | some href =>
    if substrB "youtu.be/" href then firstPart (lastPart href "youtu.be/") "?"
    else if substrB "youtube.com/video/" href then
      firstPart (lastPart href "youtube.com/video/") "/"
    else urlVideoId pageUrl
  | none => urlVideoId pageUrl

/-- The UploadResult record of src/models.py. -/
structure UploadResult where
  video_id : String
  title : String
deriving DecidableEq, Repr

/-- The url property of UploadResult: the fixed youtu.be template with the
video id substituted. -/
def UploadResult.url (r : UploadResult) : String := "https://youtu.be/" ++ r.video_id

/-! ## cli.py upload ledger -/

/-- Python dict assignment log[k] = v on a dict modelled as an association
list in insertion order: overwrite in place, else append. -/
def dictSet : List (String × String) → String → String → List (String × String)
  | [], k, v => [(k, v)]
  | (k0, v0) :: rest, k, v =>
    if k0 = k then (k0, v) :: rest else (k0, v0) :: dictSet rest k v

/-- Step 10 of cli.run: upload_log[title] = result.url. -/
def recordUpload (log : List (String × String)) (r : UploadResult) : List (String × String) :=
  dictSet log r.title r.url

/-! ## The upload processing wait of youtube_client.upload_video

The page.wait_for_function polls a page snapshot; the snapshot is
modelled as the data the JavaScript closure reads: the non-null
querySelector results for the four error selectors in order, the body
inner text, and whether the done button is present and not
aria-disabled. -/

/-- One non-null error-selector query result: its offsetParent visibility
and its textContent. -/
structure ErrorElem where
  visible : Bool
  text : String
deriving DecidableEq, Repr

/-- A snapshot of the upload dialog page during the processing wait. -/
structure UploadPage where
  errorElems : List ErrorElem
  bodyText : String
  doneEnabled : Bool
deriving DecidableEq, Repr

/-- The six keyword fragments the error-element branch of the polling
closure looks for in the lowercased element text. -/
def errorKeywords : List String :=
  ["abandoned", "failed", "error", "problem", "can\x27t process", "unable"]

/-- The four failure phrases the body-text branch of the polling closure
looks for in the lowercased body text. -/
def bodyFailPhrases : List String :=
  ["processing abandoned", "upload failed", "can\x27t process this video", "server rejected"]

/-- Does one error element trigger the error branch: visible, non-blank
trimmed text, and a keyword in its lowercased trimmed text. -/
def elemTriggers (e : ErrorElem) : Bool :=
  e.visible && !(pyStrip e.text = "") &&
    errorKeywords.any fun k => substrB k (pyLower (pyStrip e.text))

/-- Outcome of one evaluation of the polling closure, together with the
window.__ytUploadError value it stores. -/
inductive PollOutcome where
  | errorFound (msg : String)
  | done
  | keepWaiting
deriving DecidableEq, Repr

/-- One evaluation of the wait_for_function closure: error elements first
(storing the trimmed element text), then the body-text phrases (storing
the fixed text Upload error detected in page), then the enabled done
button (storing the empty string). -/
def pollStep (p : UploadPage) : PollOutcome :=
  match p.errorElems.find? elemTriggers with
  | some e => .errorFound (pyStrip e.text)
  | none =>
    if bodyFailPhrases.any fun ph => substrB ph (pyLower p.bodyText) then
      .errorFound "Upload error detected in page"
    else if p.doneEnabled then .done
    else .keepWaiting

/-- Clickability of the publish controls probed after a successful wait:
the done button, then a role lookup for Publish, then for Save. -/
structure PublishControls where
  doneClickOk : Bool
  rolePublishOk : Bool
  roleSaveOk : Bool
deriving DecidableEq, Repr

/-- The tail of upload_video from the processing wait on: the page
snapshot is held fixed, so a closure that never fires is the timeout
path. Returns the raised message or the UploadResult, and whether a
publish click was attempted. -/
def uploadTail (p : UploadPage) (ctl : PublishControls) (links : List String)
    (pageUrl : String) (title statusText : String) : Except String UploadResult × Bool :=
  match pollStep p with
  | .keepWaiting =>
    (.error ("Upload timed out. Progress at timeout: " ++ statusText ++
      ". Screenshot saved to yt_debug_upload_timeout.png"), false)
  | .errorFound msg =>
    (.error ("YouTube upload error: " ++ msg ++ ". Status text: " ++ statusText ++
      ". Screenshot saved to yt_debug_upload_error.png"), false)
  | .done =>
    if ctl.doneClickOk || ctl.rolePublishOk || ctl.roleSaveOk then
      (.ok ⟨extract_video_id links pageUrl, title⟩, true)
    else (.error "Could not click Publish/Save button.", true)

/-! ## zoom_client.download_recording -/

/-- One element hit by a download-control selector: whether it is visible,
and the transferred bytes if clicking it while a download is awaited
starts one (none models an expect_download timeout). -/
structure DlElem where
  visible : Bool
  dlOnClick : Option String
deriving DecidableEq, Repr

/-- A snapshot of the recording detail page: the hit lists of the five
candidate download selectors in probe order, the hit lists of the four
modal-scoped confirmation selectors, and the download (if any) started by
re-clicking the originally found control. -/
structure DetailPage where
  btnDownload : List DlElem
  hrefDl1 : List DlElem
  hrefSsv : List DlElem
  hrefRecDl : List DlElem
  ariaDl : List DlElem
  modalSels : List (List DlElem)
  reclickDl : Option String
deriving Repr

/-- First visible element of one selector hit list (the inner j loop). -/
def firstVisible (l : List DlElem) : Option DlElem := l.find? (·.visible)

/-- The selector probe loop of download_recording: the five candidate
selectors in order, picking the first visible hit. -/
def findDownloadBtn (p : DetailPage) : Option DlElem :=
  match firstVisible p.btnDownload with
  | some b => some b
  | none =>
    match firstVisible p.hrefDl1 with
    | some b => some b
    | none =>
      match firstVisible p.hrefSsv with
      | some b => some b
      | none =>
        match firstVisible p.hrefRecDl with
        | some b => some b
        | none => firstVisible p.ariaDl

/-- The modal confirmation probe: for each modal selector with a visible
first hit, click it awaiting a download; a timeout is caught and the loop
continues with the next selector. -/
def modalProbe : List (List DlElem) → Option String
  | [] => none
  | sel :: rest =>
    match sel with
    | [] => modalProbe rest
    | e :: _ =>
      if e.visible then
        match e.dlOnClick with
        | some b => some b
        | none => modalProbe rest
      else modalProbe rest

/-- download_recording over a detail-page snapshot and a file system
modelled as a path-to-contents association list: find a download control
(error if none), click it, then probe the confirmation dialog, the
last Download button fallback, and the re-click last resort; persist the
transferred bytes at the destination on success. Returns the final file
system and the outcome. -/
def download_recording (p : DetailPage) (fs : List (String × String)) (dest : String) :
    List (String × String) × Except String String :=
  match findDownloadBtn p with
  | none =>
    (fs, .error ("Could not find download button on recording detail page. " ++
      "Try downloading manually from the browser."))
  | some _ =>
    match modalProbe p.modalSels with
    | some bytes => (dictSet fs dest bytes, .ok dest)
    | none =>
      match if p.btnDownload.length > 1 then p.btnDownload.getLast?.bind (·.dlOnClick)
        else none with
      | some bytes => (dictSet fs dest bytes, .ok dest)
      | none =>
        match p.reclickDl with
        | some bytes => (dictSet fs dest bytes, .ok dest)
        | none => (fs, .error "Timeout 600000ms exceeded while waiting for event download")

/-! ## utils.parse_date_input -/

/-- A Python datetime.date value. -/
structure PyDate where
  year : Nat
  month : Nat
  day : Nat
deriving DecidableEq, Repr

/-- Gregorian leap year test. -/
def isLeap (y : Nat) : Bool := y % 4 = 0 && (y % 100 ≠ 0 || y % 400 = 0)

/-- Days in a month of a year. -/
def daysInMonth (y m : Nat) : Nat :=
  if m = 2 then (if isLeap y then 29 else 28)
  else if m = 4 || m = 6 || m = 9 || m = 11 then 30
  else 31

/-- date.today() - timedelta(days=1): calendar predecessor. -/
def predDate (t : PyDate) : PyDate :=
  if t.day > 1 then ⟨t.year, t.month, t.day - 1⟩
  else if t.month > 1 then ⟨t.year, t.month - 1, daysInMonth t.year (t.month - 1)⟩
  else ⟨t.year - 1, 12, 31⟩

/-- Value of a digit-character list, most significant first. -/
def digitsVal (l : List Char) : Nat := l.foldl (fun a c => a * 10 + (c.toNat - 48)) 0

/-- datetime.strptime(text, percent-Y-m-d).date(): exactly four digits,
dash, a two-digit month form, dash, a two-digit day form (the single-digit
month and day alternatives cannot consume the ten characters the caller
guarantees, so the unconverted-data check rules them out), then date
construction validates the day against the month and the year against
MINYEAR. Any failure is a ValueError. -/
def strptimeYMD (l : List Char) : Except String PyDate :=
  match l with
  | [a, b, c, d, s1, e, f, s2, g, i] =>
    if isDigitC a && isDigitC b && isDigitC c && isDigitC d && s1 = '-' && isDigitC e &&
        isDigitC f && s2 = '-' && isDigitC g && isDigitC i then
      let y := digitsVal [a, b, c, d]
      let m := digitsVal [e, f]
      let dd := digitsVal [g, i]
      if 1 ≤ y && 1 ≤ m && m ≤ 12 && 1 ≤ dd && dd ≤ 31 && dd ≤ daysInMonth y m then
        .ok ⟨y, m, dd⟩
      else .error "ValueError: strptime"
    else .error "ValueError: strptime"
  | _ => .error "ValueError: strptime"

/-- datetime.strptime(text, percent-Y-m-d compact).date() on the
eight-digit input the caller guarantees: four-digit year, then the month
and the day must each take their two-digit forms to consume all eight
characters. -/
def strptimeYMDCompact (l : List Char) : Except String PyDate :=
  match l with
  | [a, b, c, d, e, f, g, i] =>
    if isDigitC a && isDigitC b && isDigitC c && isDigitC d && isDigitC e && isDigitC f &&
        isDigitC g && isDigitC i then
      let y := digitsVal [a, b, c, d]
      let m := digitsVal [e, f]
      let dd := digitsVal [g, i]
      if 1 ≤ y && 1 ≤ m && m ≤ 12 && 1 ≤ dd && dd ≤ 31 && dd ≤ daysInMonth y m then
        .ok ⟨y, m, dd⟩
      else .error "ValueError: strptime"
    else .error "ValueError: strptime"
  | _ => .error "ValueError: strptime"

/-- The month component of the strptime percent-m pattern, alternatives in
regex order: 1 followed by 0-2, or 0 followed by 1-9, or a single 1-9.
The following literal dash disambiguates, so ordered choice here equals
the backtracking regex semantics. -/
def parseMonthPart : List Char → Option (Nat × List Char)
  | [] => none
  | [c0] => if '1' ≤ c0 && c0 ≤ '9' then some (c0.toNat - 48, []) else none
  | c0 :: c1 :: rest =>
    if c0 = '1' && ('0' ≤ c1 && c1 ≤ '2') then some (10 + (c1.toNat - 48), rest)
    else if c0 = '0' && ('1' ≤ c1 && c1 ≤ '9') then some (c1.toNat - 48, rest)
    else if '1' ≤ c0 && c0 ≤ '9' then some (c0.toNat - 48, c1 :: rest)
    else none

/-- The day component of the strptime percent-d pattern, alternatives in
regex order: 3 followed by 0-1, or 1-2 followed by a digit, or 0 followed
by 1-9, or a single 1-9. -/
def parseDayPart : List Char → Option (Nat × List Char)
  | [] => none
  | [c0] => if '1' ≤ c0 && c0 ≤ '9' then some (c0.toNat - 48, []) else none
  | c0 :: c1 :: rest =>
    if c0 = '3' && (c1 = '0' || c1 = '1') then some (30 + (c1.toNat - 48), rest)
    else if ('1' ≤ c0 && c0 ≤ '2') && isDigitC c1 then
      some (10 * (c0.toNat - 48) + (c1.toNat - 48), rest)
    else if c0 = '0' && ('1' ≤ c1 && c1 ≤ '9') then some (c1.toNat - 48, rest)
    else if '1' ≤ c0 && c0 ≤ '9' then some (c0.toNat - 48, c1 :: rest)
    else none

/-- datetime.strptime(text, percent-m-d).date(): month, literal dash, day,
the unconverted-data check, then date construction against the strptime
default year 1900 (so February caps at 28). -/
def strptimeMD (l : List Char) : Except String PyDate :=
  match parseMonthPart l with
  | none => .error "ValueError: strptime"
  | some (m, r1) =>
    match r1 with
    | '-' :: r2 =>
      match parseDayPart r2 with
      | none => .error "ValueError: strptime"
      | some (d, r3) =>
        if r3 = [] then
          if d ≤ daysInMonth 1900 m then .ok ⟨1900, m, d⟩
          else .error "ValueError: strptime"
        else .error "ValueError: strptime"
    | _ => .error "ValueError: strptime"

/-- utils.parse_date_input: strip and lowercase, then the today and
yesterday literals, the ISO branch, the compact branch, the short
month-day branch with the current year substituted, and the user-facing
ValueError for everything else. Every .error models a raised
ValueError. -/
def parse_date_input (today : PyDate) (text : String) : Except String PyDate :=
  let t := lowerL (stripL text.toList)
  if t = "today".toList then .ok today
  else if t = "yesterday".toList then .ok (predDate today)
  else if t.length = 10 && t.getD 4 ' ' = '-' then strptimeYMD t
  else if t.length = 8 && t.all isDigitC then strptimeYMDCompact t
  else if t.length ≤ 5 && t.contains '-' then
    match strptimeMD t with
    | .ok d => .ok ⟨today.year, d.month, d.day⟩
    | .error e => .error e
  else .error "ValueError: Cannot parse date. Use YYYY-MM-DD, YYYYMMDD, MM-DD, today, or yesterday."

/-! ## The JSON upload ledger (cli._save_upload_log / cli._load_upload_log)

The ledger is a JSON object whose keys and values are strings.
_save_upload_log writes json.dumps(log, indent=2); _load_upload_log reads
the file back through json.loads. The serializer below reproduces the
dumps output for that fragment exactly (default ensure_ascii escaping,
two-space indent); the reader models json.loads restricted to
string-valued objects, with scanstring escape decoding including
surrogate pairs, and dict construction in encounter order with last
value winning on a repeated key. -/

/-- Lowercase hexadecimal digit character, as in the Python 04x format. -/
def toHexDigitL (n : Nat) : Char :=
  if n < 10 then Char.ofNat (48 + n) else Char.ofNat (87 + n)

/-- Four lowercase hex digits of n, most significant first. -/
def hex4Chars (n : Nat) : List Char :=
  [toHexDigitL (n / 4096 % 16), toHexDigitL (n / 256 % 16),
   toHexDigitL (n / 16 % 16), toHexDigitL (n % 16)]

/-- One character as json.dumps with default ensure_ascii renders it: the
short escapes, backslash-u escapes for other control and non-ASCII
characters, surrogate pairs above the basic plane, and printable ASCII
unchanged. -/
def escapeChar (c : Char) : List Char :=
  if c = '"' then ['\\', '"']
  else if c = '\\' then ['\\', '\\']
  else if c = '\n' then ['\\', 'n']
  else if c = '\x0d' then ['\\', 'r']
  else if c = '\t' then ['\\', 't']
  else if c = '\x08' then ['\\', 'b']
  else if c = '\x0c' then ['\\', 'f']
  else if c.toNat < 0x20 then '\\' :: 'u' :: hex4Chars c.toNat
  else if c.toNat < 0x7f then [c]
  else if c.toNat < 0x10000 then '\\' :: 'u' :: hex4Chars c.toNat
  else
    ('\\' :: 'u' :: hex4Chars (0xD800 + (c.toNat - 0x10000) / 0x400)) ++
      ('\\' :: 'u' :: hex4Chars (0xDC00 + (c.toNat - 0x10000) % 0x400))

/-- A JSON string literal: quote, escaped characters, quote. -/
def encStr (s : List Char) : List Char := '"' :: (s.flatMap escapeChar ++ ['"'])

/-- The members of a dumped object with indent=2: each entry on its own
line indented two spaces, comma separated. -/
def dumpEntries : List (List Char × List Char) → List Char
  | [] => []
  | [(k, v)] => '\n' :: ' ' :: ' ' :: (encStr k ++ ':' :: ' ' :: encStr v)
  | (k, v) :: rest =>
    '\n' :: ' ' :: ' ' :: (encStr k ++ ':' :: ' ' :: encStr v) ++ ',' :: dumpEntries rest

/-- json.dumps(log, indent=2) on a string-to-string object. -/
def dumpLedgerL (m : List (List Char × List Char)) : List Char :=
  match m with
  | [] => ['\x7b', '\x7d']
  | _ :: _ => '\x7b' :: dumpEntries m ++ '\n' :: ['\x7d']

/-- The whitespace characters json.loads skips between tokens. -/
def isJsonWs (c : Char) : Bool := c = ' ' || c = '\t' || c = '\n' || c = '\x0d'

/-- Skip JSON whitespace. -/
def skipWsJ (l : List Char) : List Char := l.dropWhile isJsonWs

/-- Hexadecimal digit value, upper or lower case, as int(s, 16) accepts. -/
def hexDigVal (c : Char) : Option Nat :=
  if '0' ≤ c && c ≤ '9' then some (c.toNat - 48)
  else if 'a' ≤ c && c ≤ 'f' then some (c.toNat - 87)
  else if 'A' ≤ c && c ≤ 'F' then some (c.toNat - 55)
  else none

/-- Value of four hex digits, most significant first. -/
def hex4Val (a b c d : Char) : Option Nat :=
  match hexDigVal a, hexDigVal b, hexDigVal c, hexDigVal d with
  | some va, some vb, some vc, some vd => some (((va * 16 + vb) * 16 + vc) * 16 + vd)
  | _, _, _, _ => none

/-- The short escape decoding of json scanstring. -/
def unescapeShort (e : Char) : Option Char :=
  match e with
  | '"' => some '"'
  | '\\' => some '\\'
  | '/' => some '/'
  | 'n' => some '\n'
  | 't' => some '\t'
  | 'r' => some '\x0d'
  | 'b' => some '\x08'
  | 'f' => some '\x0c'
  | _ => none

/-- json scanstring after the opening quote: raw characters, short
escapes, backslash-u escapes, and surrogate pairs combined into one code
point. A lone surrogate is rejected (a Lean Char cannot carry it; the
serializer never produces one). Returns the decoded characters and the
remainder after the closing quote. -/
def parseStrBody : List Char → Option (List Char × List Char)
  | [] => none
  | '"' :: rest => some ([], rest)
  | '\\' :: 'u' :: a :: b :: c :: d :: rest =>
    match hex4Val a b c d with
    | none => none
    | some n =>
      if 0xD800 ≤ n && n < 0xDC00 then
        match rest with
        | '\\' :: 'u' :: e :: f :: g :: i :: rest2 =>
          match hex4Val e f g i with
          | some n2 =>
            if 0xDC00 ≤ n2 && n2 < 0xE000 then
              match parseStrBody rest2 with
              | some (s, r) =>
                some (Char.ofNat (0x10000 + (n - 0xD800) * 0x400 + (n2 - 0xDC00)) :: s, r)
              | none => none
            else none
          | none => none
        | _ => none
      else if 0xDC00 ≤ n && n < 0xE000 then none
      else
        match parseStrBody rest with
        | some (s, r) => some (Char.ofNat n :: s, r)
        | none => none
  | '\\' :: e :: rest =>
    match unescapeShort e with
    | none => none
    | some ch =>
      match parseStrBody rest with
      | some (s, r) => some (ch :: s, r)
      | none => none
  | c :: rest =>
    match parseStrBody rest with
    | some (s, r) => some (c :: s, r)
    | none => none

/-- One key-value member of a string-valued object: whitespace, key
string, whitespace, colon, whitespace, value string. -/
def parsePair (l : List Char) : Option ((List Char × List Char) × List Char) :=
  match skipWsJ l with
  | '"' :: r1 =>
    match parseStrBody r1 with
    | none => none
    | some (k, r2) =>
      match skipWsJ r2 with
      | ':' :: r3 =>
        match skipWsJ r3 with
        | '"' :: r4 =>
          match parseStrBody r4 with
          | none => none
          | some (v, r5) => some ((k, v), r5)
        | _ => none
      | _ => none
  | _ => none

/-- The member list after the opening brace of a non-empty object:
members separated by commas, closed by the closing brace. Fuel bounds the
recursion; the caller passes the input length, which one member always
exceeds. -/
def parseMembers : Nat → List Char → Option (List (List Char × List Char) × List Char)
  | 0, _ => none
  | fuel + 1, l =>
    match parsePair l with
    | none => none
    | some (kv, r) =>
      match skipWsJ r with
      | ',' :: r2 =>
        match parseMembers fuel r2 with
        | some (kvs, r3) => some (kv :: kvs, r3)
        | none => none
      | '\x7d' :: r2 => some ([kv], r2)
      | _ => none

/-- json.loads of a whole document that must be a string-valued object:
the member list in document order, with nothing but whitespace after the
closing brace. -/
def parseLedgerObj (l : List Char) : Option (List (List Char × List Char)) :=
  match skipWsJ l with
  | '\x7b' :: r =>
    match skipWsJ r with
    | '\x7d' :: r2 => if skipWsJ r2 = [] then some [] else none
    | _ =>
      match parseMembers l.length r with
      | some (kvs, r2) => if skipWsJ r2 = [] then some kvs else none
      | none => none
  | _ => none

/-- cli._save_upload_log: the text written to uploads.json. -/
def save_upload_log (log : List (String × String)) : String :=
  ⟨dumpLedgerL (log.map fun kv => (kv.1.toList, kv.2.toList))⟩

/-- cli._load_upload_log on existing file contents: json.loads, building
the dict in encounter order with a repeated key overwriting in place. -/
def load_upload_log (contents : String) : Option (List (String × String)) :=
  (parseLedgerObj contents.toList).map fun kvs =>
    kvs.foldl (fun acc kv => dictSet acc ⟨kv.1⟩ ⟨kv.2⟩) []

/-! ## Specification-side definitions

The definitions below restate claim wordings declaratively; the theorems
compare them with the code embeddings above. -/

/-- Claim C3 wording of deduplication: keep the first record of each
deduplication key, dropping every later record with the same key; first
occurrence order preserved. -/
def keepFirstByKey : List ZoomRecording → List ZoomRecording
  | [] => []
  | r :: rs => r :: keepFirstByKey (rs.filter fun s => !decide (recordKey s = recordKey r))
termination_by l => l.length
decreasing_by
  simp only [List.length_cons]
  exact Nat.lt_succ_of_le (List.length_filter_le _ _)

/-- Remove the first element satisfying p, keeping everything else: used
to state which lines remain after the date and duration lines are
claimed (claim C5). -/
def removeFirstSuch (p : String → Bool) : List String → List String
  | [] => []
  | l :: ls => if p l then ls else l :: removeFirstSuch p ls

/-- Claim C4 wording of the ISO shape: YYYY-MM-DD with two-digit month
and day, denoting a calendar-valid date with a positive year. -/
def isoShapeC4 (t : List Char) : Bool :=
  match t with
  | [y1, y2, y3, y4, s1, m1, m2, s2, d1, d2] =>
    isDigitC y1 && isDigitC y2 && isDigitC y3 && isDigitC y4 && s1 = '-' && isDigitC m1 &&
      isDigitC m2 && s2 = '-' && isDigitC d1 && isDigitC d2 &&
      (let y := digitsVal [y1, y2, y3, y4]
       let m := digitsVal [m1, m2]
       let d := digitsVal [d1, d2]
       1 ≤ y && 1 ≤ m && m ≤ 12 && 1 ≤ d && d ≤ daysInMonth y m)
  | _ => false

/-- Claim C4 wording of the compact shape: YYYYMMDD, eight digits
denoting a calendar-valid date with a positive year. -/
def compactShapeC4 (t : List Char) : Bool :=
  match t with
  | [y1, y2, y3, y4, m1, m2, d1, d2] =>
    isDigitC y1 && isDigitC y2 && isDigitC y3 && isDigitC y4 && isDigitC m1 && isDigitC m2 &&
      isDigitC d1 && isDigitC d2 &&
      (let y := digitsVal [y1, y2, y3, y4]
       let m := digitsVal [m1, m2]
       let d := digitsVal [d1, d2]
       1 ≤ y && 1 ≤ m && m ≤ 12 && 1 ≤ d && d ≤ daysInMonth y m)
  | _ => false

/-- Claim C4 wording of the month-day shape, read literally: MM-DD with
two-digit month and two-digit day, denoting a month 1-12 and a day valid
for that month. Day validity in the claim is against the current year;
the statements below are evaluated where that coincides with the
reference year the code uses. -/
def mdShapeC4 (year : Nat) (t : List Char) : Bool :=
  match t with
  | [m1, m2, s1, d1, d2] =>
    isDigitC m1 && isDigitC m2 && s1 = '-' && isDigitC d1 && isDigitC d2 &&
      (let m := digitsVal [m1, m2]
       let d := digitsVal [d1, d2]
       1 ≤ m && m ≤ 12 && 1 ≤ d && d ≤ daysInMonth year m)
  | _ => false

/-- The claim C4 acceptance predicate on the normalized input: exactly
the literal words today and yesterday, the ISO shape, the compact shape,
and the two-digit month-day shape. -/
def claimAcceptedC4 (year : Nat) (t : List Char) : Bool :=
  t = "today".toList || t = "yesterday".toList || isoShapeC4 t || compactShapeC4 t ||
    mdShapeC4 year t

/-- The month-day shapes parse_date_input actually accepts: dash-separated
month and day of one or two digits each, month 1-12, day valid for that
month in the strptime default year 1900. -/
def mdAccepted (t : List Char) : Bool :=
  match t with
  | [m1, '-', d1] =>
    isDigitC m1 && isDigitC d1 &&
      (let m := digitsVal [m1]
       let d := digitsVal [d1]
       1 ≤ m && 1 ≤ d && d ≤ daysInMonth 1900 m)
  | [m1, '-', d1, d2] =>
    isDigitC m1 && isDigitC d1 && isDigitC d2 &&
      (let m := digitsVal [m1]
       let d := digitsVal [d1, d2]
       1 ≤ m && 1 ≤ d && d ≤ daysInMonth 1900 m)
  | [m1, m2, '-', d1] =>
    isDigitC m1 && isDigitC m2 && isDigitC d1 &&
      (let m := digitsVal [m1, m2]
       let d := digitsVal [d1]
       1 ≤ m && m ≤ 12 && 1 ≤ d && d ≤ daysInMonth 1900 m)
  | [m1, m2, '-', d1, d2] =>
    isDigitC m1 && isDigitC m2 && isDigitC d1 && isDigitC d2 &&
      (let m := digitsVal [m1, m2]
       let d := digitsVal [d1, d2]
       1 ≤ m && m ≤ 12 && 1 ≤ d && d ≤ daysInMonth 1900 m)
  | _ => false

/-- The inputs parse_date_input accepts, stated declaratively over the
normalized (stripped, lowercased) character list. -/
def acceptedDateInput (t : List Char) : Bool :=
  t = "today".toList || t = "yesterday".toList || isoShapeC4 t || compactShapeC4 t ||
    mdAccepted t

/-! ## Concrete evaluations of the embedded functions -/

example : extract_video_id ["https://youtu.be/abc?x=1"] "u" = "abc" := by decide

example : extract_video_id [] "https://studio.youtube.com/video/xyz/edit" = "xyz" := by decide

example : extract_video_id ["https://youtu.beX"] "nope" = "unknown" := by decide

example : parse_date_input ⟨2026, 10, 12⟩ "2026-02-03" = .ok ⟨2026, 2, 3⟩ := rfl

example : parse_date_input ⟨2026, 10, 12⟩ "20260203" = .ok ⟨2026, 2, 3⟩ := rfl

example : parse_date_input ⟨2026, 10, 12⟩ "02-03" = .ok ⟨2026, 2, 3⟩ := rfl

example : parse_date_input ⟨2026, 10, 12⟩ "2-3" = .ok ⟨2026, 2, 3⟩ := rfl

example : parse_date_input ⟨2026, 10, 12⟩ " TODAY " = .ok ⟨2026, 10, 12⟩ := rfl

example : parse_date_input ⟨2026, 10, 12⟩ "yesterday" = .ok ⟨2026, 10, 11⟩ := rfl

example : (parse_date_input ⟨2026, 10, 12⟩ "02-29").isOk = false := by decide

example : (parse_date_input ⟨2026, 10, 12⟩ "2026-2-3").isOk = false := by decide

example : (parse_date_input ⟨2026, 10, 12⟩ "garbage").isOk = false := by decide

example : pollStep ⟨[], "x processing abandoned y", false⟩ =
    .errorFound "Upload error detected in page" := by decide

example : save_upload_log [] = "\x7b\x7d" := by decide

example : load_upload_log "\x7b\x7d" = some [] := rfl

example : load_upload_log (save_upload_log [("Meeting 20260203", "https://youtu.be/abc")]) =
    some [("Meeting 20260203", "https://youtu.be/abc")] := rfl

example : load_upload_log (save_upload_log [("a\"b\\c", "x\ny"), ("d", "π𝄞")]) =
    some [("a\"b\\c", "x\ny"), ("d", "π𝄞")] := rfl

example : dateLineB "Feb 3, 2026" = true := by decide

example : dateLineB "12/3/2026" = true := by decide

example : dateLineB "2026-02-03" = false := by decide

example : dateLineB "My meeting topic" = false := by decide

example : durationB "01:00:00" = true := by decide

example : durationB "1:00:00" = false := by decide

example : date_patterns 2026 2 3 =
    ["Feb 3, 2026", "Feb 03, 2026", "2/3/2026", "02/03/2026", "2026-02-03"] := by decide

example :
    processEntry (date_patterns 2026 2 3) ⟨"My meeting topic\n12/3/2026\n01:00:00", "h"⟩ =
      some ⟨"My meeting topic", "12/3/2026", "01:00:00", "", "h"⟩ := by decide

example :
    list_recordings 2026 2 3
      [⟨"Meeting\nx|2/3/2026\n01:00:00", "h1"⟩, ⟨"Meeting|x\n2/3/2026\n01:00:00", "h2"⟩] =
      [⟨"Meeting", "x|2/3/2026", "01:00:00", "", "h1"⟩] := by decide

/-! ## Shared helper lemmas -/

/-- A prefix of a list is a prefix of that list extended on the right. -/
theorem isPrefixL_append (n a b : List Char) (h : isPrefixL n a = true) :
    isPrefixL n (a ++ b) = true := by
  induction n generalizing a with
  | nil => simp [isPrefixL]
  | cons c cs ih =>
    cases a with
    | nil => simp [isPrefixL] at h
    | cons x xs =>
      simp only [isPrefixL, Bool.and_eq_true] at h ⊢
      exact ⟨h.1, ih xs h.2⟩

/-- A substring of a list is a substring of that list extended on the
right. -/
theorem isInfixL_append (n a b : List Char) (h : isInfixL n a = true) :
    isInfixL n (a ++ b) = true := by
  induction a with
  | nil =>
    simp only [isInfixL, List.isEmpty_eq_true] at h
    subst h
    cases b with
    | nil => simp [isInfixL]
    | cons x xs => simp [isInfixL, isPrefixL]
  | cons x xs ih =>
    simp only [isInfixL, Bool.or_eq_true] at h
    rcases h with h | h
    · simp only [List.cons_append, isInfixL, Bool.or_eq_true]
      exact Or.inl (by simpa using isPrefixL_append n (x :: xs) b h)
    · simp only [List.cons_append, isInfixL, Bool.or_eq_true]
      exact Or.inr (ih h)

/-! ## Claim C9: entries with at most two non-empty lines yield nothing -/

/-- Claim C9: a listing-page entry whose rendered text has at most two
non-empty stripped lines is skipped: processEntry yields no record, and
the full locator loop gives the same output with the entry removed, for
any requested-date patterns and any surrounding entries. -/
theorem C9_short_entry_skipped (pats : List String) (e : PageEntry)
    (h : (entryLines e.text).length ≤ 2) :
    processEntry pats e = none ∧
      ∀ (seen : List String) (es1 es2 : List PageEntry),
        listRecordingsGo pats seen (es1 ++ e :: es2) = listRecordingsGo pats seen (es1 ++ es2) := by
  have hnone : processEntry pats e = none := by
    simp only [processEntry, if_pos h]
  refine ⟨hnone, ?_⟩
  intro seen es1 es2
  induction es1 generalizing seen with
  | nil => simp [listRecordingsGo, hnone]
  | cons a as ih =>
    simp only [List.cons_append, listRecordingsGo]
    cases processEntry pats a with
    | none => exact ih seen
    | some r =>
      by_cases hk : recordKey r ∈ seen
      · simp only [if_pos hk]
        exact ih seen
      · simp only [if_neg hk]
        exact congrArg (List.cons r) (ih (recordKey r :: seen))

/-- Witness for claim C9 at a concrete two-line entry. -/
theorem C9_witness :
    (entryLines "short\n01:00:00").length ≤ 2 ∧
      processEntry (date_patterns 2026 2 3) ⟨"short\n01:00:00", "h"⟩ = none :=
  ⟨by decide, (C9_short_entry_skipped (date_patterns 2026 2 3) ⟨"short\n01:00:00", "h"⟩
    (by decide)).1⟩

/-! ## Claim C7: no visible download control -/

/-- Claim C7: when no candidate selector has a visible hit on the detail
page, download_recording fails with the download-unavailable error and
the file system is returned unchanged: nothing is written at the
destination. -/
theorem C7_no_download_control (p : DetailPage) (fs : List (String × String)) (dest : String)
    (h1 : ∀ e ∈ p.btnDownload, e.visible = false)
    (h2 : ∀ e ∈ p.hrefDl1, e.visible = false)
    (h3 : ∀ e ∈ p.hrefSsv, e.visible = false)
    (h4 : ∀ e ∈ p.hrefRecDl, e.visible = false)
    (h5 : ∀ e ∈ p.ariaDl, e.visible = false) :
    download_recording p fs dest =
      (fs, .error ("Could not find download button on recording detail page. " ++
        "Try downloading manually from the browser.")) := by
  have hfv : ∀ (l : List DlElem), (∀ e ∈ l, e.visible = false) → firstVisible l = none := by
    intro l hl
    exact List.find?_eq_none.mpr fun e he => by simp [hl e he]
  have hbtn : findDownloadBtn p = none := by
    simp [findDownloadBtn, hfv _ h1, hfv _ h2, hfv _ h3, hfv _ h4, hfv _ h5]
  simp [download_recording, hbtn]

/-- Witness for claim C7: a detail page whose only download-selector hits
are invisible, with a would-be download behind the confirmation flow that
is never reached. -/
theorem C7_witness :
    download_recording
        ⟨[⟨false, some "bytes"⟩], [], [], [], [], [[⟨true, some "bytes"⟩]], some "bytes"⟩
        [("old.mp4", "x")] "dest.mp4" =
      ([("old.mp4", "x")], .error ("Could not find download button on recording detail page. " ++
        "Try downloading manually from the browser.")) :=
  C7_no_download_control _ _ _ (by decide) (by decide) (by decide) (by decide) (by decide)

/-! ## Claim C6: publish succeeds but no identifier is recoverable -/

/-- Claim C6: when no anchor href carries a youtu.be or canonical
video-URL identifier and the page URL has no video segment, the
extracted identifier is the sentinel, upload_video still returns a
result (no exception), and the ledger update stores the best-effort URL
built from the sentinel under the computed title. -/
theorem C6_sentinel_id_still_recorded (links : List String) (pageUrl : String)
    (p : UploadPage) (ctl : PublishControls) (log : List (String × String))
    (title status : String)
    (hlinks : ∀ h ∈ links,
      substrB "youtu.be/" h = false ∧ substrB "youtube.com/video/" h = false)
    (hurl : substrB "/video/" pageUrl = false)
    (hpoll : pollStep p = .done)
    (hctl : ctl.doneClickOk = true) :
    extract_video_id links pageUrl = "unknown" ∧
      uploadTail p ctl links pageUrl title status = (.ok ⟨"unknown", title⟩, true) ∧
      recordUpload log ⟨"unknown", title⟩ = dictSet log title "https://youtu.be/unknown" := by
  have hfall : urlVideoId pageUrl = "unknown" := by
    simp [urlVideoId, hurl]
  have hext : extract_video_id links pageUrl = "unknown" := by
    unfold extract_video_id
    cases hf : links.find? fun h => substrB "youtu.be" h || substrB "youtube.com/video" h with
    | none => exact hfall
    | some href =>
      have hmem : href ∈ links := List.mem_of_find?_eq_some hf
      have := hlinks href hmem
      simp [this.1, this.2, hfall]
  refine ⟨hext, ?_, ?_⟩
  · rw [uploadTail, hpoll]
    simp [hctl, hext]
  · simp [recordUpload, UploadResult.url]

/-- Witness for claim C6: a success dialog with an unrecognizable link, a
studio URL without a video segment, and a ledger holding one earlier
upload. -/
theorem C6_witness :
    extract_video_id ["https://youtu.beX"] "https://studio.youtube.com/channel" = "unknown" ∧
      uploadTail ⟨[], "", true⟩ ⟨true, true, true⟩ ["https://youtu.beX"]
          "https://studio.youtube.com/channel" "Meeting 20260203" "" =
        (.ok ⟨"unknown", "Meeting 20260203"⟩, true) ∧
      recordUpload [("Old", "https://youtu.be/old")] ⟨"unknown", "Meeting 20260203"⟩ =
        dictSet [("Old", "https://youtu.be/old")] "Meeting 20260203" "https://youtu.be/unknown" :=
  C6_sentinel_id_still_recorded _ _ _ _ _ _ _
    (by decide) (by decide) (by decide) (by decide)

/-! ## Claim C2: the processing-abandoned failure path -/

/-- Counterexample to claim C2 as stated: the poll observes body text
containing the phrase processing abandoned with no triggering error
element; the director raises and never attempts the publish click, but
the diagnostic message carries the fixed text Upload error detected in
page, not the observed phrase. -/
theorem C2_counterexample :
    uploadTail ⟨[], "Your video: processing abandoned", false⟩ ⟨true, true, true⟩ [] "u" "T" "" =
      (.error ("YouTube upload error: Upload error detected in page. Status text: . " ++
        "Screenshot saved to yt_debug_upload_error.png"), false) ∧
      substrB "processing abandoned"
        ("YouTube upload error: Upload error detected in page. Status text: . " ++
          "Screenshot saved to yt_debug_upload_error.png") = false := by
  constructor
  · rfl
  · decide

/-- Claim C2 amended: when the poll observes page body text containing
processing abandoned and no error element triggers first, the Upload
Director raises a failure whose diagnostic message contains the fixed
text Upload error detected in page (not the phrase itself, unless the
scraped status text happens to repeat it), and no publish click is
attempted. -/
theorem C2_amended (p : UploadPage) (ctl : PublishControls) (links : List String)
    (pageUrl title status : String)
    (helems : ∀ e ∈ p.errorElems, elemTriggers e = false)
    (hbody : substrB "processing abandoned" (pyLower p.bodyText) = true) :
    uploadTail p ctl links pageUrl title status =
      (.error ("YouTube upload error: Upload error detected in page. Status text: " ++ status ++
        ". Screenshot saved to yt_debug_upload_error.png"), false) ∧
      substrB "Upload error detected in page"
        ("YouTube upload error: Upload error detected in page. Status text: " ++ status ++
          ". Screenshot saved to yt_debug_upload_error.png") = true := by
  have hfind : p.errorElems.find? elemTriggers = none :=
    List.find?_eq_none.mpr fun e he => by simp [helems e he]
  have hpoll : pollStep p = .errorFound "Upload error detected in page" := by
    simp [pollStep, hfind, bodyFailPhrases, hbody]
  constructor
  · rw [uploadTail, hpoll]
    rfl
  · have : substrB "Upload error detected in page"
        "YouTube upload error: Upload error detected in page. Status text: " = true := by decide
    simpa [substrB, String.data_append] using
      isInfixL_append "Upload error detected in page".toList
        "YouTube upload error: Upload error detected in page. Status text: ".toList
        (status.toList ++ ". Screenshot saved to yt_debug_upload_error.png".toList)
        (by simpa [substrB] using this)

/-- Witness for the amended claim C2: a page with one invisible error
region and the phrase in the body, scraped status text present. -/
theorem C2_witness :
    uploadTail ⟨[⟨false, "error"⟩], "x processing abandoned y", true⟩ ⟨true, true, true⟩ []
        "u" "T" "Uploading 45 percent" =
      (.error ("YouTube upload error: Upload error detected in page. Status text: " ++
        "Uploading 45 percent" ++ ". Screenshot saved to yt_debug_upload_error.png"), false) ∧
      substrB "Upload error detected in page"
        ("YouTube upload error: Upload error detected in page. Status text: " ++
          "Uploading 45 percent" ++ ". Screenshot saved to yt_debug_upload_error.png") = true :=
  C2_amended _ _ _ _ _ _ (by decide) (by decide)

/-! ## Claim C1: the date filter -/

/-- Counterexample to claim C1 as stated: for requested date 2026-02-03,
an entry whose date line is 12/3/2026 — which is none of the five
pre-rendered forms — is nevertheless included, because the filter tests
substring containment and 2/3/2026 occurs inside 12/3/2026. The full
locator returns the record as well. -/
theorem C1_counterexample :
    processEntry (date_patterns 2026 2 3) ⟨"My meeting topic\n12/3/2026\n01:00:00", "h"⟩ =
      some ⟨"My meeting topic", "12/3/2026", "01:00:00", "", "h"⟩ ∧
      list_recordings 2026 2 3 [⟨"My meeting topic\n12/3/2026\n01:00:00", "h"⟩] =
        [⟨"My meeting topic", "12/3/2026", "01:00:00", "", "h"⟩] ∧
      ((date_patterns 2026 2 3).all fun p => p ≠ "12/3/2026") = true := by
  refine ⟨by decide, by decide, by decide⟩

/-- Claim C1 amended: an entry is included by the date filter exactly when
its rendered text has more than two non-empty lines and its classified
date field textually CONTAINS one of the five pre-rendered forms of the
requested date as a substring; in particular each of the five exact forms
is included, but so is any longer date line containing one of them. -/
theorem C1_amended (y m d : Nat) (e : PageEntry) :
    (processEntry (date_patterns y m d) e).isSome = true ↔
      ((entryLines e.text).length > 2 ∧
        ((date_patterns y m d).any fun p =>
          substrB p (classifyLines ((entryLines e.text).filter
            fun l => !pyStartsWith "Press Shift" l)).1) = true) := by
  simp only [processEntry]
  split_ifs with h1 h2
  · simp only [Option.isSome_none]
    constructor
    · intro h
      exact absurd h (by simp)
    · intro h
      omega
  · simp only [Option.isSome_some, true_iff]
    exact ⟨by omega, h2⟩
  · simp only [Option.isSome_none]
    constructor
    · intro h
      exact absurd h (by simp)
    · intro h
      exact absurd h.2 (by simp [h2])

/-! ## Claim C3: deduplication -/

/-- Counterexample to claim C3 as stated: the deduplication key is the
string topic, vertical bar, date line; two entries with different
(topic, date-line) pairs can share the key. Here the second date-filtered
entry is dropped although no earlier entry has an identical pair. -/
theorem C3_counterexample :
    list_recordings 2026 2 3
        [⟨"Meeting\nx|2/3/2026\n01:00:00", "h1"⟩, ⟨"Meeting|x\n2/3/2026\n01:00:00", "h2"⟩] =
      [⟨"Meeting", "x|2/3/2026", "01:00:00", "", "h1"⟩] ∧
      processEntry (date_patterns 2026 2 3) ⟨"Meeting|x\n2/3/2026\n01:00:00", "h2"⟩ =
        some ⟨"Meeting|x", "2/3/2026", "01:00:00", "", "h2"⟩ ∧
      (("Meeting|x", "2/3/2026") ≠ (("Meeting", "x|2/3/2026") : String × String)) := by
  refine ⟨by decide, by decide, by decide⟩

/-- The locator loop is the deduplication stage applied after the
per-entry filter. -/
theorem listRecordingsGo_eq_dedup (pats : List String) (seen : List String)
    (es : List PageEntry) :
    listRecordingsGo pats seen es = dedupRecords seen (es.filterMap (processEntry pats)) := by
  induction es generalizing seen with
  | nil => rfl
  | cons e es ih =>
    simp only [listRecordingsGo, List.filterMap_cons]
    cases processEntry pats e with
    | none => exact ih seen
    | some r =>
      simp only [dedupRecords]
      by_cases hk : recordKey r ∈ seen
      · simp only [if_pos hk]
        exact ih seen
      · simp only [if_neg hk]
        rw [ih (recordKey r :: seen)]

/-- Generalized first-occurrence characterization of the deduplication
loop: with a seen set, it keeps the first record of each key not yet
seen. -/
theorem dedupRecords_eq_keepFirst (l : List ZoomRecording) :
    ∀ seen : List String,
      dedupRecords seen l = keepFirstByKey (l.filter fun r => !decide (recordKey r ∈ seen)) := by
  induction l with
  | nil => intro seen; simp [dedupRecords, keepFirstByKey]
  | cons r rs ih =>
    intro seen
    by_cases hk : recordKey r ∈ seen
    · rw [dedupRecords, if_pos hk, ih seen]
      congr 1
      simp [List.filter_cons, hk]
    · rw [dedupRecords, if_neg hk, ih (recordKey r :: seen)]
      have hfc : List.filter (fun s => !decide (recordKey s ∈ seen)) (r :: rs) =
          r :: List.filter (fun s => !decide (recordKey s ∈ seen)) rs := by
        simp [List.filter_cons, hk]
      rw [hfc]
      simp only [keepFirstByKey]
      congr 1
      rw [List.filter_filter]
      congr 1
      apply List.filter_congr
      intro s _
      simp only [List.mem_cons]
      rcases Decidable.em (recordKey s = recordKey r) with h1 | h1 <;>
        rcases Decidable.em (recordKey s ∈ seen) with h2 | h2 <;> simp [h1, h2]

/-- The deduplication output is a sublist of its input: order preserved,
every result is an input record. -/
theorem dedupRecords_sublist (l : List ZoomRecording) :
    ∀ seen : List String, (dedupRecords seen l).Sublist l := by
  induction l with
  | nil => intro seen; simp [dedupRecords]
  | cons r rs ih =>
    intro seen
    by_cases hk : recordKey r ∈ seen
    · simp only [dedupRecords, if_pos hk]
      exact (ih seen).cons r
    · simp only [dedupRecords, if_neg hk]
      exact (ih (recordKey r :: seen)).cons₂ r

/-- No key of the deduplication output lies in the seen set. -/
theorem dedupRecords_key_notin (l : List ZoomRecording) :
    ∀ (seen : List String) (r : ZoomRecording), r ∈ dedupRecords seen l →
      recordKey r ∉ seen := by
  induction l with
  | nil => intro seen r hr; simp [dedupRecords] at hr
  | cons a rs ih =>
    intro seen r hr
    by_cases hk : recordKey a ∈ seen
    · rw [dedupRecords, if_pos hk] at hr
      exact ih seen r hr
    · rw [dedupRecords, if_neg hk] at hr
      rcases List.mem_cons.mp hr with rfl | hr
      · exact hk
      · intro hmem
        exact ih _ r hr (List.mem_cons_of_mem _ hmem)

/-- No two records of the deduplication output share a key. -/
theorem dedupRecords_pairwise (l : List ZoomRecording) :
    ∀ seen : List String,
      (dedupRecords seen l).Pairwise fun a b => recordKey a ≠ recordKey b := by
  induction l with
  | nil => intro seen; simp [dedupRecords]
  | cons r rs ih =>
    intro seen
    by_cases hk : recordKey r ∈ seen
    · simp only [dedupRecords, if_pos hk]
      exact ih seen
    · simp only [dedupRecords, if_neg hk]
      refine List.Pairwise.cons ?_ (ih (recordKey r :: seen))
      intro b hb
      have := dedupRecords_key_notin rs (recordKey r :: seen) b hb
      intro heq
      exact this (heq ▸ List.mem_cons_self _ _)

/-- Claim C3 amended: the Locator deduplicates by the joined string key
topic-bar-dateline, not by the (topic, date-line) pair: the loop equals
the per-entry filter followed by first-occurrence-per-key deduplication,
results keep first-occurrence order (a sublist of the filtered
sequence), and no two results share a key. When no topic or date line
contains a vertical bar this coincides with pair deduplication, but keys
can collide across different pairs. -/
theorem C3_amended :
    (∀ (pats : List String) (es : List PageEntry),
        listRecordingsGo pats [] es = dedupRecords [] (es.filterMap (processEntry pats))) ∧
      (∀ l : List ZoomRecording, dedupRecords [] l = keepFirstByKey l) ∧
      (∀ l : List ZoomRecording, (dedupRecords [] l).Sublist l) ∧
      (∀ l : List ZoomRecording,
        (dedupRecords [] l).Pairwise fun a b => recordKey a ≠ recordKey b) := by
  refine ⟨fun pats es => listRecordingsGo_eq_dedup pats [] es, fun l => ?_,
    fun l => dedupRecords_sublist l [], fun l => dedupRecords_pairwise l []⟩
  rw [dedupRecords_eq_keepFirst l []]
  congr 1
  simp

/-! ## Claim C5: content-based line classification

The helper lemmas show a line that fully matches the duration pattern can
never match the date regex (its characters are digits and colons, while
both date alternatives need a slash or a month name), so the two roles
never compete for one line. -/

/-- A digit character codes at most 57. -/
theorem digit_le57 (c : Char) (h : isDigitC c = true) : c.toNat ≤ 57 := by
  simp only [isDigitC, Bool.and_eq_true, decide_eq_true_eq] at h
  exact UInt32.le_def.mp (Char.le_def.mp h.2)

/-- The month-name alternative needs an initial letter of code at least
65; it fails on any smaller head character. -/
theorem matchMonthDateAt_cons_false (c : Char) (cs : List Char) (h : c.toNat < 65) :
    matchMonthDateAt (c :: cs) = false := by
  have hne : ∀ u : Char, 64 < u.toNat → (u = c) = False := fun u hu =>
    eq_false fun he => by rw [he] at hu; omega
  simp [matchMonthDateAt, monthsL, dropPfx, hne 'J' (by decide), hne 'F' (by decide),
    hne 'M' (by decide), hne 'A' (by decide), hne 'S' (by decide), hne 'O' (by decide),
    hne 'N' (by decide), hne 'D' (by decide)]

/-- Digit consumption returns a suffix: its members come from the input. -/
theorem digitsN_mem (n : Nat) (l r : List Char) (h : digitsN n l = some r) :
    ∀ x ∈ r, x ∈ l := by
  induction n generalizing l with
  | zero =>
    simp only [digitsN, Option.some.injEq] at h
    subst h
    exact fun x hx => hx
  | succ n ih =>
    cases l with
    | nil => simp [digitsN] at h
    | cons c cs =>
      simp only [digitsN] at h
      by_cases hc : isDigitC c = true
      · rw [if_pos hc] at h
        exact fun x hx => List.mem_cons_of_mem _ (ih cs h x hx)
      · rw [if_neg hc] at h
        exact absurd h (by simp)

/-- The numeric date alternative needs a slash; it fails on slash-free
input. -/
theorem matchNumDateAt_eq_false (l : List Char) (h : ∀ x ∈ l, ¬(x = '/')) :
    matchNumDateAt l = false := by
  have key : ∀ a : Nat, (digitsN a l).bind (litC '/') = none := by
    intro a
    cases hd : digitsN a l with
    | none => rfl
    | some r =>
      cases r with
      | nil => simp [litC]
      | cons x xs =>
        have hx : x ∈ l := digitsN_mem a l (x :: xs) hd x (List.mem_cons_self x xs)
        simp [litC, h x hx]
  simp [matchNumDateAt, key]

/-- The date regex finds nothing in a line of digits and colons. -/
theorem dateSearch_eq_false_of_safe (l : List Char)
    (h : ∀ x ∈ l, isDigitC x = true ∨ x = ':') : dateSearch l = false := by
  induction l with
  | nil => rfl
  | cons c cs ih =>
    have hc := h c (List.mem_cons_self c cs)
    have h65 : c.toNat < 65 := by
      rcases hc with hd | hco
      · have := digit_le57 c hd
        omega
      · subst hco
        decide
    have hnos : ∀ x ∈ c :: cs, ¬(x = '/') := by
      intro x hx
      rcases h x hx with hd | hco
      · intro he
        subst he
        exact absurd hd (by decide)
      · subst hco
        decide
    rw [dateSearch]
    simp [dateAt, matchMonthDateAt_cons_false c cs h65, matchNumDateAt_eq_false _ hnos,
      ih fun x hx => h x (List.mem_cons_of_mem c hx)]

/-- A full duration match consists of digits and colons only. -/
theorem durationFull_safe (t : List Char) (h : durationFull t = true) :
    ∀ x ∈ t, isDigitC x = true ∨ x = ':' := by
  rcases t with _ | ⟨a, _ | ⟨b, _ | ⟨c1, _ | ⟨d, _ | ⟨e, _ | ⟨f, _ | ⟨g, _ | ⟨i, rest⟩⟩⟩⟩⟩⟩⟩⟩ <;>
    try simp [durationFull] at h
  cases rest with
  | cons y ys => simp [durationFull] at h
  | nil =>
    simp only [durationFull, Bool.and_eq_true, decide_eq_true_eq] at h
    obtain ⟨⟨⟨⟨⟨⟨⟨ha, hb⟩, hc1⟩, hd⟩, he⟩, hf⟩, hg⟩, hi⟩ := h
    subst hc1
    subst hf
    intro x hx
    simp only [List.mem_cons, List.not_mem_nil, or_false] at hx
    rcases hx with rfl | rfl | rfl | rfl | rfl | rfl | rfl | rfl
    · exact Or.inl ha
    · exact Or.inl hb
    · exact Or.inr rfl
    · exact Or.inl hd
    · exact Or.inl he
    · exact Or.inr rfl
    · exact Or.inl hg
    · exact Or.inl hi

/-- A line fully matching the duration pattern does not match the date
regex. -/
theorem durationB_dateLineB_false (l : String) (h : durationB l = true) :
    dateLineB l = false :=
  dateSearch_eq_false_of_safe l.toList (durationFull_safe l.toList h)

/-- A line matching the date regex does not fully match the duration
pattern. -/
theorem dateLineB_durationB_false (l : String) (h : dateLineB l = true) :
    durationB l = false := by
  cases hd : durationB l
  · rfl
  · rw [durationB_dateLineB_false l hd] at h
    exact absurd h (by simp)

/-- A line matching the date regex is non-empty. -/
theorem dateLineB_ne_empty (l : String) (h : dateLineB l = true) : l ≠ "" := by
  intro he
  subst he
  exact absurd h (by decide)

/-- A line matching the duration pattern is non-empty. -/
theorem durationB_ne_empty (l : String) (h : durationB l = true) : l ≠ "" := by
  intro he
  subst he
  exact absurd h (by decide)

/-- A line qualifying as a topic is non-empty. -/
theorem topicOk_ne_empty (l : String) (h : topicOk l = true) : l ≠ "" := by
  intro he
  subst he
  exact absurd h (by decide)

/-- Generalized invariant of the classification loop: the date and
duration slots take the first matching line once empty, and the topic
slot takes the first qualifying line not claimed as the date or the
duration. -/
theorem classifyGo_spec (ls : List String) :
    ∀ dt du tp : String,
      classifyGo dt du tp ls =
        ((if dt = "" then (ls.find? dateLineB).getD "" else dt),
         (if du = "" then (ls.find? durationB).getD "" else du),
         (if tp = "" then
            (((if du = "" then removeFirstSuch durationB else id)
                ((if dt = "" then removeFirstSuch dateLineB else id) ls)).find? topicOk).getD ""
          else tp)) := by
  induction ls with
  | nil =>
    intro dt du tp
    simp only [classifyGo, List.find?_nil, Option.getD_none]
    by_cases hdt : dt = "" <;> by_cases hdu : du = "" <;> by_cases htp : tp = "" <;>
      simp [hdt, hdu, htp, removeFirstSuch]
  | cons l ls ih =>
    intro dt du tp
    simp only [classifyGo]
    by_cases h1 : (dt = "" && dateLineB l) = true
    · rw [if_pos h1]
      rw [Bool.and_eq_true, decide_eq_true_eq] at h1
      obtain ⟨hdt, hdl⟩ := h1
      subst hdt
      have hlne : l ≠ "" := dateLineB_ne_empty l hdl
      have hdur : durationB l = false := dateLineB_durationB_false l hdl
      rw [ih l du tp]
      simp only [Prod.mk.injEq]
      refine ⟨?_, ?_, ?_⟩
      · simp [hlne, List.find?_cons_of_pos _ hdl]
      · rw [List.find?_cons_of_neg _ (by simp [hdur])]
      · by_cases htp : tp = "" <;>
          simp [htp, hlne, removeFirstSuch, hdl]
    · rw [if_neg h1]
      by_cases h2 : (du = "" && durationB l) = true
      · rw [if_pos h2]
        rw [Bool.and_eq_true, decide_eq_true_eq] at h2
        obtain ⟨hdu, hdl2⟩ := h2
        subst hdu
        have hlne : l ≠ "" := durationB_ne_empty l hdl2
        have hdlf : dateLineB l = false := by
          cases hd : dateLineB l
          · rfl
          · rw [dateLineB_durationB_false l hd] at hdl2
            exact absurd hdl2 (by simp)
        rw [ih dt l tp]
        simp only [Prod.mk.injEq]
        refine ⟨?_, ?_, ?_⟩
        · rw [List.find?_cons_of_neg _ (by simp [hdlf])]
        · simp [hlne, List.find?_cons_of_pos _ hdl2]
        · by_cases htp : tp = "" <;> by_cases hdt : dt = "" <;>
            simp [htp, hdt, hlne, removeFirstSuch, hdlf, hdl2]
      · rw [if_neg h2]
        have hd1 : dt = "" → dateLineB l = false := by
          intro hdt
          subst hdt
          simpa using h1
        have hd2 : du = "" → durationB l = false := by
          intro hdu
          subst hdu
          simpa using h2
        by_cases h3 : (tp = "" && topicOk l) = true
        · rw [if_pos h3]
          rw [Bool.and_eq_true, decide_eq_true_eq] at h3
          obtain ⟨htp, htop⟩ := h3
          subst htp
          have hlne : l ≠ "" := topicOk_ne_empty l htop
          rw [ih dt du l]
          simp only [Prod.mk.injEq]
          refine ⟨?_, ?_, ?_⟩
          · by_cases hdt : dt = ""
            · simp [hdt, List.find?_cons, hd1 hdt]
            · simp [hdt]
          · by_cases hdu : du = ""
            · simp [hdu, List.find?_cons, hd2 hdu]
            · simp [hdu]
          · by_cases hdt : dt = "" <;> by_cases hdu : du = "" <;>
              simp [hdt, hdu, hlne, removeFirstSuch, hd1, hd2, htop, List.find?_cons]
        · rw [if_neg h3]
          have hd3 : tp = "" → topicOk l = false := by
            intro htp
            subst htp
            simpa using h3
          rw [ih dt du tp]
          simp only [Prod.mk.injEq]
          refine ⟨?_, ?_, ?_⟩
          · by_cases hdt : dt = ""
            · simp [hdt, List.find?_cons, hd1 hdt]
            · simp [hdt]
          · by_cases hdu : du = ""
            · simp [hdu, List.find?_cons, hd2 hdu]
            · simp [hdu]
          · by_cases htp : tp = "" <;> by_cases hdt : dt = "" <;> by_cases hdu : du = "" <;>
              simp [htp, hdt, hdu, removeFirstSuch, hd1, hd2, hd3, List.find?_cons]

/-- Claim C5: classification is by content, not position. The date field
is the first line matching the date regex, the duration the first line
fully matching HH:MM:SS, and the topic the first remaining line (the
first date and duration lines removed) that is not purely numeric and
longer than three characters, defaulting to Unknown. -/
theorem C5_classification (lines : List String) :
    classifyLines lines =
      ((lines.find? dateLineB).getD "",
       (lines.find? durationB).getD "",
       ((removeFirstSuch durationB (removeFirstSuch dateLineB lines)).find? topicOk).getD
         "Unknown") := by
  unfold classifyLines
  rw [classifyGo_spec lines "" "" ""]
  simp only [if_pos rfl, Prod.mk.injEq, id_eq]
  refine ⟨by simp, by simp, ?_⟩
  cases hf : (removeFirstSuch durationB (removeFirstSuch dateLineB lines)).find? topicOk with
  | none => simp [hf]
  | some t =>
    have ht : topicOk t = true := List.find?_some hf
    have htne : t ≠ "" := topicOk_ne_empty t ht
    simp [hf, htne]

/-! ## Claim C10: case and whitespace insensitivity of parse_date_input -/

/-- toNat inverts Char.ofNat on valid code points below the surrogates. -/
theorem toNat_ofNat_valid (n : Nat) (h : n < 0xD800) : (Char.ofNat n).toNat = n := by
  have hv : n.isValidChar := Or.inl h
  rw [Char.ofNat, dif_pos hv]
  rfl

/-- Lowercasing is the identity outside the uppercase range. -/
theorem asciiLower_of_not_upper (c : Char) (h : ¬(('A' ≤ c && c ≤ 'Z') = true)) :
    asciiLower c = c := by
  rw [asciiLower, if_neg h]

/-- Lowercasing an uppercase letter adds 32 to its code. -/
theorem asciiLower_of_upper (c : Char) (h : ('A' ≤ c && c ≤ 'Z') = true) :
    asciiLower c = Char.ofNat (c.toNat + 32) := by
  rw [asciiLower, if_pos h]

/-- The uppercase test in code-point bounds. -/
theorem upper_bounds (c : Char) (h : ('A' ≤ c && c ≤ 'Z') = true) :
    65 ≤ c.toNat ∧ c.toNat ≤ 90 := by
  simp only [Bool.and_eq_true, decide_eq_true_eq] at h
  exact ⟨UInt32.le_def.mp (Char.le_def.mp h.1), UInt32.le_def.mp (Char.le_def.mp h.2)⟩

/-- Characters above the space range are not whitespace. -/
theorem isSpaceC_false_of_gt32 (x : Char) (hx : 32 < x.toNat) : isSpaceC x = false := by
  have hne : ∀ u : Char, u.toNat ≤ 32 → (x = u) = False := fun u hu =>
    eq_false fun he => by rw [he] at hx; omega
  simp [isSpaceC, hne ' ' (by decide), hne '\t' (by decide), hne '\n' (by decide),
    hne '\x0d' (by decide), hne '\x0b' (by decide), hne '\x0c' (by decide)]

/-- Lowercasing one character twice equals lowercasing it once. -/
theorem asciiLower_idem (c : Char) : asciiLower (asciiLower c) = asciiLower c := by
  by_cases h : ('A' ≤ c && c ≤ 'Z') = true
  · obtain ⟨h65, h90⟩ := upper_bounds c h
    have htn : (Char.ofNat (c.toNat + 32)).toNat = c.toNat + 32 :=
      toNat_ofNat_valid _ (by omega)
    rw [asciiLower_of_upper c h]
    apply asciiLower_of_not_upper
    intro hcontra
    have := (upper_bounds _ hcontra).2
    omega
  · rw [asciiLower_of_not_upper c h, asciiLower_of_not_upper c h]

/-- Lowercasing does not change whether a character is whitespace. -/
theorem isSpaceC_asciiLower (c : Char) : isSpaceC (asciiLower c) = isSpaceC c := by
  by_cases h : ('A' ≤ c && c ≤ 'Z') = true
  · obtain ⟨h65, h90⟩ := upper_bounds c h
    have htn : (Char.ofNat (c.toNat + 32)).toNat = c.toNat + 32 :=
      toNat_ofNat_valid _ (by omega)
    rw [asciiLower_of_upper c h, isSpaceC_false_of_gt32 _ (by omega),
      isSpaceC_false_of_gt32 _ (by omega)]
  · rw [asciiLower_of_not_upper c h]

/-- Lowercasing a list is idempotent. -/
theorem lowerL_idem (l : List Char) : lowerL (lowerL l) = lowerL l := by
  unfold lowerL
  rw [List.map_map]
  exact List.map_congr_left fun a _ => asciiLower_idem a

/-- Stripping commutes with lowercasing. -/
theorem stripL_lowerL (l : List Char) : stripL (lowerL l) = lowerL (stripL l) := by
  have hcomp : isSpaceC ∘ asciiLower = isSpaceC := funext isSpaceC_asciiLower
  unfold stripL lowerL
  rw [List.dropWhile_map, hcomp, ← List.map_reverse, List.dropWhile_map, hcomp,
    ← List.map_reverse]

/-- If dropWhile fixes a list it fixes each of its prefixes. -/
theorem dropWhile_eq_self_of_front {p : Char → Bool} {x l : List Char}
    (hl : List.dropWhile p l = l) (hx : x <+: l) : List.dropWhile p x = x := by
  rw [List.dropWhile_eq_self_iff] at hl ⊢
  intro h0
  obtain ⟨t, ht⟩ := hx
  subst ht
  have hlen : 0 < (x ++ t).length := by
    rw [List.length_append]
    omega
  have := hl hlen
  rwa [List.get_append 0 h0] at this

/-- Stripping a list is idempotent. -/
theorem stripL_idem (l : List Char) : stripL (stripL l) = stripL l := by
  have hs : ∀ m : List Char, stripL m = List.rdropWhile isSpaceC (List.dropWhile isSpaceC m) :=
    fun m => rfl
  rw [hs l, hs _]
  rw [dropWhile_eq_self_of_front (List.dropWhile_idempotent isSpaceC l)
    (List.rdropWhile_prefix _ _)]
  exact List.rdropWhile_idempotent _ _

/-- Normalization (strip then lowercase) is idempotent. -/
theorem normalize_idem (l : List Char) :
    lowerL (stripL (lowerL (stripL l))) = lowerL (stripL l) := by
  rw [stripL_lowerL, lowerL_idem, stripL_idem]

/-- Claim C10: parse_date_input is insensitive to surrounding whitespace
and letter case: it behaves identically on any input and on the
lowercased, whitespace-stripped form of that input. -/
theorem C10_case_whitespace_insensitive (today : PyDate) (s : String) :
    parse_date_input today s = parse_date_input today ⟨lowerL (stripL s.toList)⟩ := by
  unfold parse_date_input
  rw [show (⟨lowerL (stripL s.toList)⟩ : String).toList = lowerL (stripL s.toList) from rfl]
  rw [normalize_idem]

/-! ## Claim C4: the accepted date-input surface -/

/-- No month has more than 31 days. -/
theorem daysInMonth_le31 (y m : Nat) : daysInMonth y m ≤ 31 := by
  unfold daysInMonth
  split_ifs <;> omega

/-- decide of a Bool-equals-true proposition is the Bool itself. -/
theorem decide_beq_true (b : Bool) : decide (b = true) = b := by
  cases b <;> rfl

/-- The success test of a guarded ok-or-error expression is its guard. -/
theorem isOk_if (c : Prop) [Decidable c] (x : PyDate) (e : String) :
    (if c then (Except.ok x : Except String PyDate) else Except.error e).isOk = decide c := by
  split_ifs with h <;> simp [h, Except.isOk, Except.toBool]

/-- The ISO branch succeeds exactly on the claim C4 ISO shape. -/
theorem strptimeYMD_isOk (t : List Char) : (strptimeYMD t).isOk = isoShapeC4 t := by
  rcases t with _ | ⟨a, _ | ⟨b, _ | ⟨c, _ | ⟨d, _ | ⟨s1, _ | ⟨e, _ | ⟨f, _ | ⟨s2, _ | ⟨g,
    _ | ⟨i, rest⟩⟩⟩⟩⟩⟩⟩⟩⟩⟩ <;> try rfl
  cases rest with
  | cons y ys => rfl
  | nil =>
    simp only [strptimeYMD, isoShapeC4]
    have hd := daysInMonth_le31 (digitsVal [a, b, c, d]) (digitsVal [e, f])
    cases hg : (isDigitC a && isDigitC b && isDigitC c && isDigitC d && decide (s1 = '-') &&
        isDigitC e && isDigitC f && decide (s2 = '-') && isDigitC g && isDigitC i) with
    | false => simp [hg, Except.isOk, Except.toBool]
    | true =>
      simp only [hg, if_true, Bool.true_and, isOk_if, decide_beq_true]
      rw [Bool.eq_iff_iff]
      simp only [Bool.and_eq_true, decide_eq_true_eq]
      omega

/-- The compact branch succeeds exactly on the claim C4 compact shape. -/
theorem strptimeYMDCompact_isOk (t : List Char) :
    (strptimeYMDCompact t).isOk = compactShapeC4 t := by
  rcases t with _ | ⟨a, _ | ⟨b, _ | ⟨c, _ | ⟨d, _ | ⟨e, _ | ⟨f, _ | ⟨g, _ | ⟨i, rest⟩⟩⟩⟩⟩⟩⟩⟩ <;>
    try rfl
  cases rest with
  | cons y ys => rfl
  | nil =>
    simp only [strptimeYMDCompact, compactShapeC4]
    have hd := daysInMonth_le31 (digitsVal [a, b, c, d]) (digitsVal [e, f])
    cases hg : (isDigitC a && isDigitC b && isDigitC c && isDigitC d && isDigitC e &&
        isDigitC f && isDigitC g && isDigitC i) with
    | false => simp [hg, Except.isOk, Except.toBool]
    | true =>
      simp only [hg, if_true, Bool.true_and, isOk_if, decide_beq_true]
      rw [Bool.eq_iff_iff]
      simp only [Bool.and_eq_true, decide_eq_true_eq]
      omega

/-- Char order in code points. -/
theorem charLe_toNat {a b : Char} : (a ≤ b) ↔ a.toNat ≤ b.toNat :=
  ⟨fun h => UInt32.le_def.mp (Char.le_def.mp h), fun h => Char.le_def.mpr (UInt32.le_def.mpr h)⟩

/-- Char equality in code points. -/
theorem charEq_toNat {a b : Char} : (a = b) ↔ a.toNat = b.toNat :=
  ⟨fun h => by rw [h], fun h => Char.ext (UInt32.toNat.inj h)⟩

/-- The three-element month-day shape with a middle dash, by reduction. -/
theorem mdAccepted3_dash (c0 c2 : Char) :
    mdAccepted [c0, '-', c2] =
      (isDigitC c0 && isDigitC c2 &&
        (1 ≤ digitsVal [c0] && 1 ≤ digitsVal [c2] &&
          digitsVal [c2] ≤ daysInMonth 1900 (digitsVal [c0]))) := by
  simp only [mdAccepted]

/-- A three-element list without a middle dash is not month-day shaped. -/
theorem mdAccepted3_nodash (c0 c1 c2 : Char) (h : c1 ≠ '-') :
    mdAccepted [c0, c1, c2] = false := by
  simp only [mdAccepted]
  split
  · rename_i heq
    simp only [List.cons.injEq] at heq
    exact absurd heq.2.1 h
  all_goals try rfl
  all_goals (rename_i heq; simp at heq)

/-- The four-element shape with the dash in second position. -/
theorem mdAccepted4_dash1 (c0 c2 c3 : Char) :
    mdAccepted [c0, '-', c2, c3] =
      (isDigitC c0 && isDigitC c2 && isDigitC c3 &&
        (1 ≤ digitsVal [c0] && 1 ≤ digitsVal [c2, c3] &&
          digitsVal [c2, c3] ≤ daysInMonth 1900 (digitsVal [c0]))) := by
  simp only [mdAccepted]

/-- The four-element shape with the dash in third position. -/
theorem mdAccepted4_dash2 (c0 c1 c3 : Char) (h : c1 ≠ '-') :
    mdAccepted [c0, c1, '-', c3] =
      (isDigitC c0 && isDigitC c1 && isDigitC c3 &&
        (1 ≤ digitsVal [c0, c1] && digitsVal [c0, c1] ≤ 12 && 1 ≤ digitsVal [c3] &&
          digitsVal [c3] ≤ daysInMonth 1900 (digitsVal [c0, c1]))) := by
  simp only [mdAccepted]

/-- A four-element list with no dash in second or third position is not
month-day shaped. -/
theorem mdAccepted4_nodash (c0 c1 c2 c3 : Char) (h1 : c1 ≠ '-') (h2 : c2 ≠ '-') :
    mdAccepted [c0, c1, c2, c3] = false := by
  simp only [mdAccepted]
  split
  · rename_i heq
    simp at heq
  · rename_i heq
    simp only [List.cons.injEq] at heq
    exact absurd heq.2.1 h1
  · rename_i heq
    simp only [List.cons.injEq] at heq
    exact absurd heq.2.2.1 h2
  · rename_i heq
    simp at heq
  · rfl

/-- The five-element shape with the dash in third position. -/
theorem mdAccepted5_dash (c0 c1 c3 c4 : Char) :
    mdAccepted [c0, c1, '-', c3, c4] =
      (isDigitC c0 && isDigitC c1 && isDigitC c3 && isDigitC c4 &&
        (1 ≤ digitsVal [c0, c1] && digitsVal [c0, c1] ≤ 12 && 1 ≤ digitsVal [c3, c4] &&
          digitsVal [c3, c4] ≤ daysInMonth 1900 (digitsVal [c0, c1]))) := by
  simp only [mdAccepted]

/-- A five-element list without a dash in third position is not month-day
shaped. -/
theorem mdAccepted5_nodash (c0 c1 c2 c3 c4 : Char) (h : c2 ≠ '-') :
    mdAccepted [c0, c1, c2, c3, c4] = false := by
  simp only [mdAccepted]
  split
  · rename_i heq
    simp at heq
  · rename_i heq
    simp at heq
  · rename_i heq
    simp at heq
  · rename_i heq
    simp only [List.cons.injEq] at heq
    exact absurd heq.2.2.1 h
  · rfl

/-- Code point of the dash character. -/
theorem chD : ('-' : Char).toNat = 45 := rfl

/-- Code point of the zero digit. -/
theorem ch0 : ('0' : Char).toNat = 48 := rfl

/-- Code point of the one digit. -/
theorem ch1 : ('1' : Char).toNat = 49 := rfl

/-- Code point of the two digit. -/
theorem ch2 : ('2' : Char).toNat = 50 := rfl

/-- Code point of the three digit. -/
theorem ch3 : ('3' : Char).toNat = 51 := rfl

/-- Code point of the nine digit. -/
theorem ch9 : ('9' : Char).toNat = 57 := rfl

/-- The digit test in code-point bounds. -/
theorem isDigitC_iff (c : Char) : isDigitC c = true ↔ 48 ≤ c.toNat ∧ c.toNat ≤ 57 := by
  simp [isDigitC, Bool.and_eq_true, decide_eq_true_eq, charLe_toNat, ch0, ch9]

/-- Value of a single digit character. -/
theorem digitsVal_one (c : Char) : digitsVal [c] = c.toNat - 48 := by
  simp [digitsVal]

/-- Value of a two-digit character pair. -/
theorem digitsVal_two (a b : Char) :
    digitsVal [a, b] = (a.toNat - 48) * 10 + (b.toNat - 48) := by
  simp [digitsVal]

/-- Lists of length two are not month-day shaped. -/
theorem mdAccepted_two (c0 c1 : Char) : mdAccepted [c0, c1] = false := by
  simp only [mdAccepted]

/-- Lists of length six or more are not month-day shaped. -/
theorem mdAccepted_long (c0 c1 c2 c3 c4 c5 : Char) (rest : List Char) :
    mdAccepted (c0 :: c1 :: c2 :: c3 :: c4 :: c5 :: rest) = false := by
  simp only [mdAccepted]

/-- strptimeMD on the empty input: rejected, matching the shape predicate. -/
theorem strptimeMD_isOk_len0 : (strptimeMD []).isOk = mdAccepted [] := rfl

/-- strptimeMD on length-one inputs: rejected, matching the shape predicate. -/
theorem strptimeMD_isOk_len1 (c0 : Char) : (strptimeMD [c0]).isOk = mdAccepted [c0] := by
  simp only [strptimeMD, parseMonthPart]
  split_ifs <;> rfl

/-- strptimeMD on length-two inputs: rejected, matching the shape predicate. -/
theorem strptimeMD_isOk_len2 (c0 c1 : Char) : (strptimeMD [c0, c1]).isOk = mdAccepted [c0, c1] := by
  rw [mdAccepted_two]
  simp only [strptimeMD, parseMonthPart, parseDayPart]
  split_ifs with hA hB hC
  · rfl
  · rfl
  · dsimp only
    split
    · rename_i r1 r2 heq
      simp only [List.cons.injEq] at heq
      obtain ⟨hc1, hr2⟩ := heq
      subst hr2
      rfl
    · rfl
  · rfl

/-- strptimeMD on length-three inputs agrees with the month-day shape predicate. -/
theorem strptimeMD_isOk_len3 (c0 c1 c2 : Char) :
    (strptimeMD [c0, c1, c2]).isOk = mdAccepted [c0, c1, c2] := by
  simp only [strptimeMD, parseMonthPart, parseDayPart]
  split_ifs with hA hB hC
  · dsimp only
    have hc1 : c1 ≠ '-' := by
      simp only [Bool.and_eq_true, decide_eq_true_eq, charLe_toNat, ch0, ch2] at hA
      intro h
      rw [charEq_toNat, chD] at h
      omega
    rw [mdAccepted3_nodash c0 c1 c2 hc1]
    split
    · rename_i r1 r2 heq
      simp only [List.cons.injEq] at heq
      obtain ⟨hc2, hr2⟩ := heq
      subst hr2
      rfl
    · rfl
  · dsimp only
    have hc1 : c1 ≠ '-' := by
      simp only [Bool.and_eq_true, decide_eq_true_eq, charLe_toNat, ch1, ch9] at hB
      intro h
      rw [charEq_toNat, chD] at h
      omega
    rw [mdAccepted3_nodash c0 c1 c2 hc1]
    split
    · rename_i r1 r2 heq
      simp only [List.cons.injEq] at heq
      obtain ⟨hc2, hr2⟩ := heq
      subst hr2
      rfl
    · rfl
  · dsimp only
    split
    · rename_i r1 r2 heq
      simp only [List.cons.injEq] at heq
      obtain ⟨hc1, hr2⟩ := heq
      subst hc1
      subst hr2
      dsimp only
      split_ifs with hD
      · dsimp only
        rw [if_pos rfl, isOk_if, mdAccepted3_dash, Bool.eq_iff_iff]
        simp only [Bool.and_eq_true, decide_eq_true_eq, charLe_toNat, charEq_toNat, ch0, ch1,
          ch9, isDigitC_iff, digitsVal_one, digitsVal_two] at hC hD ⊢
        omega
      · rw [mdAccepted3_dash, Bool.eq_iff_iff]
        simp only [Bool.and_eq_true, decide_eq_true_eq, charLe_toNat, charEq_toNat, ch0, ch1,
          ch9, isDigitC_iff, digitsVal_one, digitsVal_two, Except.isOk, Except.toBool,
          Bool.false_eq_true, false_iff] at hC hD ⊢
        omega
    · rename_i r1 hno
      have hc1 : c1 ≠ '-' := fun h => hno [c2] (by rw [h])
      rw [mdAccepted3_nodash c0 c1 c2 hc1]
      rfl
  · by_cases hc1 : c1 = '-'
    · subst hc1
      rw [mdAccepted3_dash, Bool.eq_iff_iff]
      simp only [Bool.and_eq_true, decide_eq_true_eq, charLe_toNat, charEq_toNat, ch0, ch1,
        ch9, isDigitC_iff, digitsVal_one, digitsVal_two, Except.isOk, Except.toBool,
        Bool.false_eq_true, false_iff] at hC ⊢
      omega
    · rw [mdAccepted3_nodash c0 c1 c2 hc1]
      rfl

/-- strptimeMD on length-four inputs agrees with the month-day shape predicate. -/
theorem strptimeMD_isOk_len4 (c0 c1 c2 c3 : Char) :
    (strptimeMD [c0, c1, c2, c3]).isOk = mdAccepted [c0, c1, c2, c3] := by
  simp only [strptimeMD, parseMonthPart, parseDayPart]
  split_ifs with hA hB hC
  · -- two-digit month, first form
    dsimp only
    have hc1 : c1 ≠ '-' := by
      simp only [Bool.and_eq_true, decide_eq_true_eq, charLe_toNat, ch0, ch2] at hA
      intro h
      rw [charEq_toNat, chD] at h
      omega
    split
    · rename_i r1 r2 heq
      simp only [List.cons.injEq] at heq
      obtain ⟨hc2, hr2⟩ := heq
      subst hc2
      subst hr2
      dsimp only
      split_ifs with hD
      · dsimp only
        rw [if_pos rfl, isOk_if, mdAccepted4_dash2 c0 c1 c3 hc1, Bool.eq_iff_iff]
        simp only [Bool.and_eq_true, Bool.or_eq_true, decide_eq_true_eq, charLe_toNat,
          charEq_toNat, chD, ch0, ch1, ch2, ch3, ch9, isDigitC_iff, digitsVal_one,
          digitsVal_two, Except.isOk, Except.toBool, Bool.false_eq_true, false_iff] at hA hD ⊢
        obtain ⟨hA1, hA2, hA3⟩ := hA
        rw [hA1, show ((49 : Nat) - 48) * 10 + (c1.toNat - 48) = 10 + (c1.toNat - 48) from by
          omega]
        omega
      · rw [mdAccepted4_dash2 c0 c1 c3 hc1, Bool.eq_iff_iff]
        simp only [Bool.and_eq_true, Bool.or_eq_true, decide_eq_true_eq, charLe_toNat,
          charEq_toNat, chD, ch0, ch1, ch2, ch3, ch9, isDigitC_iff, digitsVal_one,
          digitsVal_two, Except.isOk, Except.toBool, Bool.false_eq_true, false_iff] at hD ⊢
        omega
    · rename_i r1 hno
      have hc2 : c2 ≠ '-' := fun h => hno [c3] (by rw [h])
      rw [mdAccepted4_nodash c0 c1 c2 c3 hc1 hc2]
      rfl
  · -- two-digit month, zero-leading form
    dsimp only
    have hc1 : c1 ≠ '-' := by
      simp only [Bool.and_eq_true, decide_eq_true_eq, charLe_toNat, ch1, ch9] at hB
      intro h
      rw [charEq_toNat, chD] at h
      omega
    split
    · rename_i r1 r2 heq
      simp only [List.cons.injEq] at heq
      obtain ⟨hc2, hr2⟩ := heq
      subst hc2
      subst hr2
      dsimp only
      split_ifs with hD
      · dsimp only
        rw [if_pos rfl, isOk_if, mdAccepted4_dash2 c0 c1 c3 hc1, Bool.eq_iff_iff]
        simp only [Bool.and_eq_true, Bool.or_eq_true, decide_eq_true_eq, charLe_toNat,
          charEq_toNat, chD, ch0, ch1, ch2, ch3, ch9, isDigitC_iff, digitsVal_one,
          digitsVal_two, Except.isOk, Except.toBool, Bool.false_eq_true, false_iff] at hB hD ⊢
        obtain ⟨hB1, hB2, hB3⟩ := hB
        rw [hB1, show ((48 : Nat) - 48) * 10 + (c1.toNat - 48) = c1.toNat - 48 from by omega]
        omega
      · rw [mdAccepted4_dash2 c0 c1 c3 hc1, Bool.eq_iff_iff]
        simp only [Bool.and_eq_true, Bool.or_eq_true, decide_eq_true_eq, charLe_toNat,
          charEq_toNat, chD, ch0, ch1, ch2, ch3, ch9, isDigitC_iff, digitsVal_one,
          digitsVal_two, Except.isOk, Except.toBool, Bool.false_eq_true, false_iff] at hD ⊢
        omega
    · rename_i r1 hno
      have hc2 : c2 ≠ '-' := fun h => hno [c3] (by rw [h])
      rw [mdAccepted4_nodash c0 c1 c2 c3 hc1 hc2]
      rfl
  · -- one-digit month
    dsimp only
    split
    · rename_i r1 r2 heq
      simp only [List.cons.injEq] at heq
      obtain ⟨hc1, hr2⟩ := heq
      subst hc1
      subst hr2
      dsimp only
      split_ifs with hD1 hD2 hD3 hD4
      · dsimp only
        rw [if_pos rfl, isOk_if, mdAccepted4_dash1, Bool.eq_iff_iff]
        simp only [Bool.and_eq_true, Bool.or_eq_true, decide_eq_true_eq, charLe_toNat,
          charEq_toNat, chD, ch0, ch1, ch2, ch3, ch9, isDigitC_iff, digitsVal_one,
          digitsVal_two, Except.isOk, Except.toBool, Bool.false_eq_true, false_iff]
          at hC hD1 ⊢
        omega
      · dsimp only
        rw [if_pos rfl, isOk_if, mdAccepted4_dash1, Bool.eq_iff_iff]
        simp only [Bool.and_eq_true, Bool.or_eq_true, decide_eq_true_eq, charLe_toNat,
          charEq_toNat, chD, ch0, ch1, ch2, ch3, ch9, isDigitC_iff, digitsVal_one,
          digitsVal_two, Except.isOk, Except.toBool, Bool.false_eq_true, false_iff]
          at hC hD2 ⊢
        omega
      · dsimp only
        rw [if_pos rfl, isOk_if, mdAccepted4_dash1, Bool.eq_iff_iff]
        simp only [Bool.and_eq_true, Bool.or_eq_true, decide_eq_true_eq, charLe_toNat,
          charEq_toNat, chD, ch0, ch1, ch2, ch3, ch9, isDigitC_iff, digitsVal_one,
          digitsVal_two, Except.isOk, Except.toBool, Bool.false_eq_true, false_iff]
          at hC hD3 ⊢
        omega
      · dsimp only
        rw [if_neg (by simp), mdAccepted4_dash1, Bool.eq_iff_iff]
        have h31 := daysInMonth_le31 1900 (digitsVal [c0])
        simp only [Bool.and_eq_true, Bool.or_eq_true, decide_eq_true_eq, charLe_toNat,
          charEq_toNat, chD, ch0, ch1, ch2, ch3, ch9, isDigitC_iff, digitsVal_one,
          digitsVal_two, Except.isOk, Except.toBool, Bool.false_eq_true, false_iff]
          at hC hD1 hD2 hD3 hD4 h31 ⊢
        omega
      · rw [mdAccepted4_dash1, Bool.eq_iff_iff]
        simp only [Bool.and_eq_true, Bool.or_eq_true, decide_eq_true_eq, charLe_toNat,
          charEq_toNat, chD, ch0, ch1, ch2, ch3, ch9, isDigitC_iff, digitsVal_one,
          digitsVal_two, Except.isOk, Except.toBool, Bool.false_eq_true, false_iff]
          at hC hD1 hD2 hD3 hD4 ⊢
        omega
    · rename_i r1 hno
      have hc1 : c1 ≠ '-' := fun h => hno [c2, c3] (by rw [h])
      by_cases hc2 : c2 = '-'
      · subst hc2
        rw [mdAccepted4_dash2 c0 c1 c3 hc1, Bool.eq_iff_iff]
        simp only [Bool.and_eq_true, Bool.or_eq_true, decide_eq_true_eq, charLe_toNat,
          charEq_toNat, chD, ch0, ch1, ch2, ch3, ch9, isDigitC_iff, digitsVal_one,
          digitsVal_two, Except.isOk, Except.toBool, Bool.false_eq_true, false_iff]
          at hA hB hC ⊢
        omega
      · rw [mdAccepted4_nodash c0 c1 c2 c3 hc1 hc2]
        rfl
  · -- no month form
    by_cases hc1 : c1 = '-'
    · subst hc1
      rw [mdAccepted4_dash1, Bool.eq_iff_iff]
      simp only [Bool.and_eq_true, Bool.or_eq_true, decide_eq_true_eq, charLe_toNat,
        charEq_toNat, chD, ch0, ch1, ch2, ch3, ch9, isDigitC_iff, digitsVal_one,
        digitsVal_two, Except.isOk, Except.toBool, Bool.false_eq_true, false_iff]
        at hA hB hC ⊢
      omega
    · by_cases hc2 : c2 = '-'
      · subst hc2
        rw [mdAccepted4_dash2 c0 c1 c3 hc1, Bool.eq_iff_iff]
        simp only [Bool.and_eq_true, Bool.or_eq_true, decide_eq_true_eq, charLe_toNat,
          charEq_toNat, chD, ch0, ch1, ch2, ch3, ch9, isDigitC_iff, digitsVal_one,
          digitsVal_two, Except.isOk, Except.toBool, Bool.false_eq_true, false_iff]
          at hA hB hC ⊢
        omega
      · rw [mdAccepted4_nodash c0 c1 c2 c3 hc1 hc2]
        rfl

/-- strptimeMD on length-five inputs agrees with the month-day shape predicate. -/
theorem strptimeMD_isOk_len5 (c0 c1 c2 c3 c4 : Char) :
    (strptimeMD [c0, c1, c2, c3, c4]).isOk = mdAccepted [c0, c1, c2, c3, c4] := by
  simp only [strptimeMD, parseMonthPart, parseDayPart]
  split_ifs with hA hB hC
  · -- two-digit month, first form
    dsimp only
    split
    · rename_i r1 r2 heq
      simp only [List.cons.injEq] at heq
      obtain ⟨hc2, hr2⟩ := heq
      subst hc2
      subst hr2
      dsimp only
      split_ifs with hD1 hD2 hD3 hD4
      · dsimp only
        rw [if_pos rfl, isOk_if, mdAccepted5_dash, Bool.eq_iff_iff]
        simp only [Bool.and_eq_true, Bool.or_eq_true, decide_eq_true_eq, charLe_toNat,
          charEq_toNat, chD, ch0, ch1, ch2, ch3, ch9, isDigitC_iff, digitsVal_one,
          digitsVal_two, Except.isOk, Except.toBool, Bool.false_eq_true, false_iff]
          at hA hD1 ⊢
        obtain ⟨hA1, hA2, hA3⟩ := hA
        rw [hA1, show ((49 : Nat) - 48) * 10 + (c1.toNat - 48) = 10 + (c1.toNat - 48) from by
          omega]
        omega
      · dsimp only
        rw [if_pos rfl, isOk_if, mdAccepted5_dash, Bool.eq_iff_iff]
        simp only [Bool.and_eq_true, Bool.or_eq_true, decide_eq_true_eq, charLe_toNat,
          charEq_toNat, chD, ch0, ch1, ch2, ch3, ch9, isDigitC_iff, digitsVal_one,
          digitsVal_two, Except.isOk, Except.toBool, Bool.false_eq_true, false_iff]
          at hA hD2 ⊢
        obtain ⟨hA1, hA2, hA3⟩ := hA
        rw [hA1, show ((49 : Nat) - 48) * 10 + (c1.toNat - 48) = 10 + (c1.toNat - 48) from by
          omega]
        omega
      · dsimp only
        rw [if_pos rfl, isOk_if, mdAccepted5_dash, Bool.eq_iff_iff]
        simp only [Bool.and_eq_true, Bool.or_eq_true, decide_eq_true_eq, charLe_toNat,
          charEq_toNat, chD, ch0, ch1, ch2, ch3, ch9, isDigitC_iff, digitsVal_one,
          digitsVal_two, Except.isOk, Except.toBool, Bool.false_eq_true, false_iff]
          at hA hD3 ⊢
        obtain ⟨hA1, hA2, hA3⟩ := hA
        rw [hA1, show ((49 : Nat) - 48) * 10 + (c1.toNat - 48) = 10 + (c1.toNat - 48) from by
          omega]
        omega
      · dsimp only
        rw [if_neg (by simp), mdAccepted5_dash, Bool.eq_iff_iff]
        have h31 := daysInMonth_le31 1900 (digitsVal [c0, c1])
        simp only [Bool.and_eq_true, Bool.or_eq_true, decide_eq_true_eq, charLe_toNat,
          charEq_toNat, chD, ch0, ch1, ch2, ch3, ch9, isDigitC_iff, digitsVal_one,
          digitsVal_two, Except.isOk, Except.toBool, Bool.false_eq_true, false_iff]
          at hD1 hD2 hD3 hD4 h31 ⊢
        omega
      · rw [mdAccepted5_dash, Bool.eq_iff_iff]
        simp only [Bool.and_eq_true, Bool.or_eq_true, decide_eq_true_eq, charLe_toNat,
          charEq_toNat, chD, ch0, ch1, ch2, ch3, ch9, isDigitC_iff, digitsVal_one,
          digitsVal_two, Except.isOk, Except.toBool, Bool.false_eq_true, false_iff]
          at hD1 hD2 hD3 hD4 ⊢
        omega
    · rename_i r1 hno
      have hc2 : c2 ≠ '-' := fun h => hno [c3, c4] (by rw [h])
      rw [mdAccepted5_nodash c0 c1 c2 c3 c4 hc2]
      rfl
  · -- two-digit month, zero-leading form
    dsimp only
    split
    · rename_i r1 r2 heq
      simp only [List.cons.injEq] at heq
      obtain ⟨hc2, hr2⟩ := heq
      subst hc2
      subst hr2
      dsimp only
      split_ifs with hD1 hD2 hD3 hD4
      · dsimp only
        rw [if_pos rfl, isOk_if, mdAccepted5_dash, Bool.eq_iff_iff]
        simp only [Bool.and_eq_true, Bool.or_eq_true, decide_eq_true_eq, charLe_toNat,
          charEq_toNat, chD, ch0, ch1, ch2, ch3, ch9, isDigitC_iff, digitsVal_one,
          digitsVal_two, Except.isOk, Except.toBool, Bool.false_eq_true, false_iff]
          at hB hD1 ⊢
        obtain ⟨hB1, hB2, hB3⟩ := hB
        rw [hB1, show ((48 : Nat) - 48) * 10 + (c1.toNat - 48) = c1.toNat - 48 from by omega]
        omega
      · dsimp only
        rw [if_pos rfl, isOk_if, mdAccepted5_dash, Bool.eq_iff_iff]
        simp only [Bool.and_eq_true, Bool.or_eq_true, decide_eq_true_eq, charLe_toNat,
          charEq_toNat, chD, ch0, ch1, ch2, ch3, ch9, isDigitC_iff, digitsVal_one,
          digitsVal_two, Except.isOk, Except.toBool, Bool.false_eq_true, false_iff]
          at hB hD2 ⊢
        obtain ⟨hB1, hB2, hB3⟩ := hB
        rw [hB1, show ((48 : Nat) - 48) * 10 + (c1.toNat - 48) = c1.toNat - 48 from by omega]
        omega
      · dsimp only
        rw [if_pos rfl, isOk_if, mdAccepted5_dash, Bool.eq_iff_iff]
        simp only [Bool.and_eq_true, Bool.or_eq_true, decide_eq_true_eq, charLe_toNat,
          charEq_toNat, chD, ch0, ch1, ch2, ch3, ch9, isDigitC_iff, digitsVal_one,
          digitsVal_two, Except.isOk, Except.toBool, Bool.false_eq_true, false_iff]
          at hB hD3 ⊢
        obtain ⟨hB1, hB2, hB3⟩ := hB
        rw [hB1, show ((48 : Nat) - 48) * 10 + (c1.toNat - 48) = c1.toNat - 48 from by omega]
        omega
      · dsimp only
        rw [if_neg (by simp), mdAccepted5_dash, Bool.eq_iff_iff]
        have h31 := daysInMonth_le31 1900 (digitsVal [c0, c1])
        simp only [Bool.and_eq_true, Bool.or_eq_true, decide_eq_true_eq, charLe_toNat,
          charEq_toNat, chD, ch0, ch1, ch2, ch3, ch9, isDigitC_iff, digitsVal_one,
          digitsVal_two, Except.isOk, Except.toBool, Bool.false_eq_true, false_iff]
          at hD1 hD2 hD3 hD4 h31 ⊢
        omega
      · rw [mdAccepted5_dash, Bool.eq_iff_iff]
        simp only [Bool.and_eq_true, Bool.or_eq_true, decide_eq_true_eq, charLe_toNat,
          charEq_toNat, chD, ch0, ch1, ch2, ch3, ch9, isDigitC_iff, digitsVal_one,
          digitsVal_two, Except.isOk, Except.toBool, Bool.false_eq_true, false_iff]
          at hD1 hD2 hD3 hD4 ⊢
        omega
    · rename_i r1 hno
      have hc2 : c2 ≠ '-' := fun h => hno [c3, c4] (by rw [h])
      rw [mdAccepted5_nodash c0 c1 c2 c3 c4 hc2]
      rfl
  · -- one-digit month
    dsimp only
    split
    · rename_i r1 r2 heq
      simp only [List.cons.injEq] at heq
      obtain ⟨hc1, hr2⟩ := heq
      subst hc1
      subst hr2
      have hrhs : mdAccepted [c0, '-', c2, c3, c4] = false := by
        by_cases hc2 : c2 = '-'
        · subst hc2
          rw [mdAccepted5_dash, show isDigitC '-' = false from rfl]
          simp
        · rw [mdAccepted5_nodash c0 '-' c2 c3 c4 hc2]
      rw [hrhs]
      dsimp only
      split_ifs with hD1 hD2 hD3 hD4
      all_goals simp [Except.isOk, Except.toBool]
    · rename_i r1 hno
      have hc1 : c1 ≠ '-' := fun h => hno [c2, c3, c4] (by rw [h])
      by_cases hc2 : c2 = '-'
      · subst hc2
        rw [mdAccepted5_dash, Bool.eq_iff_iff]
        simp only [Bool.and_eq_true, Bool.or_eq_true, decide_eq_true_eq, charLe_toNat,
          charEq_toNat, chD, ch0, ch1, ch2, ch3, ch9, isDigitC_iff, digitsVal_one,
          digitsVal_two, Except.isOk, Except.toBool, Bool.false_eq_true, false_iff]
          at hA hB hC ⊢
        omega
      · rw [mdAccepted5_nodash c0 c1 c2 c3 c4 hc2]
        rfl
  · -- no month form
    by_cases hc2 : c2 = '-'
    · subst hc2
      rw [mdAccepted5_dash, Bool.eq_iff_iff]
      simp only [Bool.and_eq_true, Bool.or_eq_true, decide_eq_true_eq, charLe_toNat,
        charEq_toNat, chD, ch0, ch1, ch2, ch3, ch9, isDigitC_iff, digitsVal_one,
        digitsVal_two, Except.isOk, Except.toBool, Bool.false_eq_true, false_iff]
        at hA hB hC ⊢
      omega
    · rw [mdAccepted5_nodash c0 c1 c2 c3 c4 hc2]
      rfl

/-- strptimeMD on inputs of length six or more: rejected, matching the shape predicate. -/
theorem strptimeMD_isOk_long (c0 c1 c2 c3 c4 c5 : Char) (rest : List Char) :
    (strptimeMD (c0 :: c1 :: c2 :: c3 :: c4 :: c5 :: rest)).isOk =
      mdAccepted (c0 :: c1 :: c2 :: c3 :: c4 :: c5 :: rest) := by
  rw [mdAccepted_long]
  simp only [strptimeMD, parseMonthPart, parseDayPart]
  split_ifs with hA hB hC
  · dsimp only
    split
    · rename_i r1 r2 heq
      simp only [List.cons.injEq] at heq
      obtain ⟨hc2, hr2⟩ := heq
      subst hr2
      dsimp only
      split_ifs with hD1 hD2 hD3 hD4
      all_goals simp [Except.isOk, Except.toBool]
    · rfl
  · dsimp only
    split
    · rename_i r1 r2 heq
      simp only [List.cons.injEq] at heq
      obtain ⟨hc2, hr2⟩ := heq
      subst hr2
      dsimp only
      split_ifs with hD1 hD2 hD3 hD4
      all_goals simp [Except.isOk, Except.toBool]
    · rfl
  · dsimp only
    split
    · rename_i r1 r2 heq
      simp only [List.cons.injEq] at heq
      obtain ⟨hc1, hr2⟩ := heq
      subst hr2
      dsimp only
      split_ifs with hD1 hD2 hD3 hD4
      all_goals simp [Except.isOk, Except.toBool]
    · rfl
  · rfl

/-- strptimeMD succeeds exactly on the dash-separated month-day shapes
with a day valid in the strptime default year 1900. -/
theorem strptimeMD_isOk (t : List Char) : (strptimeMD t).isOk = mdAccepted t := by
  match t with
  | [] => exact strptimeMD_isOk_len0
  | [c0] => exact strptimeMD_isOk_len1 c0
  | [c0, c1] => exact strptimeMD_isOk_len2 c0 c1
  | [c0, c1, c2] => exact strptimeMD_isOk_len3 c0 c1 c2
  | [c0, c1, c2, c3] => exact strptimeMD_isOk_len4 c0 c1 c2 c3
  | [c0, c1, c2, c3, c4] => exact strptimeMD_isOk_len5 c0 c1 c2 c3 c4
  | c0 :: c1 :: c2 :: c3 :: c4 :: c5 :: rest => exact strptimeMD_isOk_long c0 c1 c2 c3 c4 c5 rest

/-- The claimed ISO shape forces the branch condition of the ISO branch. -/
theorem isoShapeC4_shape (t : List Char) (h : isoShapeC4 t = true) :
    t.length = 10 ∧ t.getD 4 ' ' = '-' := by
  simp only [isoShapeC4] at h
  split at h
  · rename_i y1 y2 y3 y4 s1 m1 m2 s2 d1 d2
    simp only [Bool.and_eq_true, decide_eq_true_eq, and_assoc] at h
    obtain ⟨h1, h2, h3, h4, hs1, h6, h7, hs2, h9, h10, hval⟩ := h
    exact ⟨rfl, hs1⟩
  · simp at h

/-- The claimed compact shape forces the branch condition of the compact
branch. -/
theorem compactShapeC4_shape (t : List Char) (h : compactShapeC4 t = true) :
    t.length = 8 ∧ t.all isDigitC = true := by
  simp only [compactShapeC4] at h
  split at h
  · rename_i y1 y2 y3 y4 m1 m2 d1 d2
    simp only [Bool.and_eq_true, decide_eq_true_eq, and_assoc] at h
    obtain ⟨h1, h2, h3, h4, h5, h6, h7, h8, hval⟩ := h
    refine ⟨rfl, ?_⟩
    simp [List.all_cons, h1, h2, h3, h4, h5, h6, h7, h8]
  · simp at h

/-- The month-day shapes force the branch condition of the month-day
branch. -/
theorem mdAccepted_shape (t : List Char) (h : mdAccepted t = true) :
    t.length ≤ 5 ∧ t.contains '-' = true := by
  simp only [mdAccepted] at h
  split at h
  · exact ⟨by simp, by simp⟩
  · exact ⟨by simp, by simp⟩
  · exact ⟨by simp, by simp⟩
  · exact ⟨by simp, by simp⟩
  · simp at h

/-- parse_date_input succeeds exactly on the declarative acceptance
predicate applied to the normalized input. -/
theorem parse_date_input_isOk_eq (today : PyDate) (s : String) :
    (parse_date_input today s).isOk = acceptedDateInput (lowerL (stripL s.toList)) := by
  simp only [parse_date_input, acceptedDateInput]
  generalize lowerL (stripL s.toList) = t
  rw [show "today".toList = ['t', 'o', 'd', 'a', 'y'] from rfl,
    show "yesterday".toList = ['y', 'e', 's', 't', 'e', 'r', 'd', 'a', 'y'] from rfl]
  split_ifs with h1 h2 h3 h4 h5
  · simp [h1, Except.isOk, Except.toBool]
  · simp [h1, h2, Except.isOk, Except.toBool]
  · simp only [Bool.and_eq_true, decide_eq_true_eq] at h3
    obtain ⟨h3l, h3d⟩ := h3
    have hcf : compactShapeC4 t = false := by
      cases hq : compactShapeC4 t
      · rfl
      · obtain ⟨hl, -⟩ := compactShapeC4_shape t hq
        omega
    have hmf : mdAccepted t = false := by
      cases hq : mdAccepted t
      · rfl
      · obtain ⟨hl, -⟩ := mdAccepted_shape t hq
        omega
    simp [h1, h2, hcf, hmf, strptimeYMD_isOk]
  · simp only [Bool.and_eq_true, decide_eq_true_eq] at h4
    obtain ⟨h4l, h4d⟩ := h4
    have hif : isoShapeC4 t = false := by
      cases hq : isoShapeC4 t
      · rfl
      · obtain ⟨hl, -⟩ := isoShapeC4_shape t hq
        omega
    have hmf : mdAccepted t = false := by
      cases hq : mdAccepted t
      · rfl
      · obtain ⟨hl, -⟩ := mdAccepted_shape t hq
        omega
    simp [h1, h2, hif, hmf, strptimeYMDCompact_isOk]
  · simp only [Bool.and_eq_true, decide_eq_true_eq] at h5
    obtain ⟨h5l, h5d⟩ := h5
    have hm : (match strptimeMD t with
        | .ok d => (Except.ok ⟨today.year, d.month, d.day⟩ : Except String PyDate)
        | .error e => .error e).isOk = (strptimeMD t).isOk := by
      cases strptimeMD t <;> rfl
    rw [hm, strptimeMD_isOk]
    have hif : isoShapeC4 t = false := by
      cases hq : isoShapeC4 t
      · rfl
      · obtain ⟨hl, -⟩ := isoShapeC4_shape t hq
        omega
    have hcf : compactShapeC4 t = false := by
      cases hq : compactShapeC4 t
      · rfl
      · obtain ⟨hl, -⟩ := compactShapeC4_shape t hq
        omega
    simp [h1, h2, hif, hcf]
  · simp only [Bool.and_eq_true, decide_eq_true_eq, not_and] at h3 h4 h5
    have hif : isoShapeC4 t = false := by
      cases hq : isoShapeC4 t
      · rfl
      · obtain ⟨hl, hd⟩ := isoShapeC4_shape t hq
        exact absurd hd (h3 hl)
    have hcf : compactShapeC4 t = false := by
      cases hq : compactShapeC4 t
      · rfl
      · obtain ⟨hl, hd⟩ := compactShapeC4_shape t hq
        exact absurd hd (h4 hl)
    have hmf : mdAccepted t = false := by
      cases hq : mdAccepted t
      · rfl
      · obtain ⟨hl, hd⟩ := mdAccepted_shape t hq
        exact absurd hd (h5 hl)
    simp [h1, h2, hif, hcf, hmf, Except.isOk, Except.toBool]

/-- Claim C4, counterexample: the input "2-3" is none of the claimed
shapes (its normalized form is itself, is not today or yesterday, and is
not ISO, compact, or two-digit MM-DD), yet parse_date_input accepts it
and returns February 3 of the current year, so the claimed acceptance
surface is too narrow. -/
theorem C4_counterexample :
    parse_date_input ⟨2026, 10, 12⟩ "2-3" = .ok ⟨2026, 2, 3⟩ ∧
    lowerL (stripL "2-3".toList) = "2-3".toList ∧
    claimAcceptedC4 2026 "2-3".toList = false := by
  refine ⟨rfl, rfl, by decide⟩

/-- Claim C4, amended: after stripping and lowercasing, parse_date_input
succeeds exactly on the literal words today and yesterday (returning
today resp. its predecessor), the calendar-valid ISO shape YYYY-MM-DD,
the calendar-valid compact shape YYYYMMDD, and dash-separated month-day
shapes whose month and day each have one or two digits, with the day
validated against the strptime default year 1900; every other input
yields the user-facing ValueError. -/
theorem C4_amended (today : PyDate) (s : String) :
    (parse_date_input today s).isOk = acceptedDateInput (lowerL (stripL s.toList)) ∧
    parse_date_input today "today" = .ok today ∧
    parse_date_input today "yesterday" = .ok (predDate today) :=
  ⟨parse_date_input_isOk_eq today s, rfl, rfl⟩

/-- A Char code point is below the surrogate range or above it and below 0x110000. -/
theorem char_valid_toNat (c : Char) :
    c.toNat < 0xD800 ∨ (0xE000 ≤ c.toNat ∧ c.toNat < 0x110000) := by
  have h := c.valid
  unfold UInt32.isValidChar Nat.isValidChar at h
  have he : c.toNat = c.val.toNat := rfl
  rcases h with h | ⟨h1, h2⟩
  · left; omega
  · right; omega

/-- Reading back a lowercase hex digit recovers its value. -/
theorem hexDig_round (k : Nat) (h : k < 16) : hexDigVal (toHexDigitL k) = some k := by
  interval_cases k <;> rfl

/-- Reading back the four hex digits of a 16-bit value recovers it. -/
theorem hex4_round (n : Nat) (h : n < 65536) :
    hex4Val (toHexDigitL (n / 4096 % 16)) (toHexDigitL (n / 256 % 16))
      (toHexDigitL (n / 16 % 16)) (toHexDigitL (n % 16)) = some n := by
  unfold hex4Val
  rw [hexDig_round _ (by omega), hexDig_round _ (by omega), hexDig_round _ (by omega),
    hexDig_round _ (by omega)]
  exact congrArg some (by omega)

/-- The cons-and-pass-through match that parseStrBody applies, as Option.map. -/
theorem matchMapCons (c : Char) (o : Option (List Char × List Char)) :
    (match o with
      | some (s, r) => some (c :: s, r)
      | none => (none : Option (List Char × List Char))) =
      o.map (fun p => (c :: p.1, p.2)) := by
  cases o with
  | none => rfl
  | some p => rfl

/-- Scanning one dumped escape sequence recovers the escaped character. -/
theorem parseStrBody_escape (c : Char) (rest : List Char) :
    parseStrBody (escapeChar c ++ rest) =
      (parseStrBody rest).map (fun p => (c :: p.1, p.2)) := by
  by_cases h1 : c = '"'
  · subst h1
    rw [show escapeChar '"' = ['\\', '"'] from rfl]
    simp only [List.cons_append, List.nil_append, parseStrBody, unescapeShort]
    exact matchMapCons _ _
  by_cases h2 : c = '\\'
  · subst h2
    rw [show escapeChar '\\' = ['\\', '\\'] from rfl]
    simp only [List.cons_append, List.nil_append, parseStrBody, unescapeShort]
    exact matchMapCons _ _
  by_cases h3 : c = '\n'
  · subst h3
    rw [show escapeChar '\n' = ['\\', 'n'] from rfl]
    simp only [List.cons_append, List.nil_append, parseStrBody, unescapeShort]
    exact matchMapCons _ _
  by_cases h4 : c = '\x0d'
  · subst h4
    rw [show escapeChar '\x0d' = ['\\', 'r'] from rfl]
    simp only [List.cons_append, List.nil_append, parseStrBody, unescapeShort]
    exact matchMapCons _ _
  by_cases h5 : c = '\t'
  · subst h5
    rw [show escapeChar '\t' = ['\\', 't'] from rfl]
    simp only [List.cons_append, List.nil_append, parseStrBody, unescapeShort]
    exact matchMapCons _ _
  by_cases h6 : c = '\x08'
  · subst h6
    rw [show escapeChar '\x08' = ['\\', 'b'] from rfl]
    simp only [List.cons_append, List.nil_append, parseStrBody, unescapeShort]
    exact matchMapCons _ _
  by_cases h7 : c = '\x0c'
  · subst h7
    rw [show escapeChar '\x0c' = ['\\', 'f'] from rfl]
    simp only [List.cons_append, List.nil_append, parseStrBody, unescapeShort]
    exact matchMapCons _ _
  rw [escapeChar, if_neg h1, if_neg h2, if_neg h3, if_neg h4, if_neg h5, if_neg h6, if_neg h7]
  by_cases h8 : c.toNat < 0x20
  · rw [if_pos h8]
    simp only [hex4Chars, List.cons_append, List.nil_append, parseStrBody]
    rw [hex4_round _ (by omega)]
    try dsimp only
    rw [if_neg (by simp only [Bool.and_eq_true, decide_eq_true_eq, not_and]; omega),
      if_neg (by simp only [Bool.and_eq_true, decide_eq_true_eq, not_and]; omega),
      Char.ofNat_toNat]
    exact matchMapCons _ _
  rw [if_neg h8]
  by_cases h9 : c.toNat < 0x7f
  · rw [if_pos h9]
    simp only [List.cons_append, List.nil_append]
    rw [parseStrBody.eq_def]
    split
    · rename_i heq
      simp at heq
    · rename_i heq
      simp only [List.cons.injEq] at heq
      exact absurd heq.1 h1
    · rename_i heq
      simp only [List.cons.injEq] at heq
      exact absurd heq.1 h2
    · rename_i heq
      simp only [List.cons.injEq] at heq
      exact absurd heq.1 h2
    · rename_i c1 r1 heq
      simp only [List.cons.injEq] at heq
      obtain ⟨hc, hr⟩ := heq
      subst hc
      subst hr
      exact matchMapCons _ _
  rw [if_neg h9]
  by_cases h10 : c.toNat < 0x10000
  · rw [if_pos h10]
    have hnd : c.toNat < 0xD800 ∨ 0xE000 ≤ c.toNat := by
      rcases char_valid_toNat c with hv | hv
      · exact Or.inl hv
      · exact Or.inr hv.1
    simp only [hex4Chars, List.cons_append, List.nil_append, parseStrBody]
    rw [hex4_round _ (by omega)]
    try dsimp only
    rw [if_neg (by simp only [Bool.and_eq_true, decide_eq_true_eq, not_and]; omega),
      if_neg (by simp only [Bool.and_eq_true, decide_eq_true_eq, not_and]; omega),
      Char.ofNat_toNat]
    exact matchMapCons _ _
  rw [if_neg h10]
  have hv2 : c.toNat < 0x110000 := by
    rcases char_valid_toNat c with hv | hv
    · omega
    · exact hv.2
  simp only [hex4Chars, List.cons_append, List.nil_append, List.append_assoc, parseStrBody]
  rw [hex4_round _ (by omega)]
  try dsimp only
  rw [if_pos (by simp only [Bool.and_eq_true, decide_eq_true_eq]; constructor <;> omega)]
  try dsimp only
  rw [hex4_round _ (by omega)]
  try dsimp only
  rw [if_pos (by simp only [Bool.and_eq_true, decide_eq_true_eq]; constructor <;> omega)]
  rw [show 0x10000 + (0xD800 + (c.toNat - 0x10000) / 0x400 - 0xD800) * 0x400 +
      (0xDC00 + (c.toNat - 0x10000) % 0x400 - 0xDC00) = c.toNat from by omega,
    Char.ofNat_toNat]
  exact matchMapCons _ _

/-- Scanning a dumped string body up to its closing quote recovers the string. -/
theorem parseStrBody_enc (s rest : List Char) :
    parseStrBody (s.flatMap escapeChar ++ '"' :: rest) = some (s, rest) := by
  induction s with
  | nil => rfl
  | cons c s ih =>
    rw [List.flatMap_cons, List.append_assoc, parseStrBody_escape, ih]
    rfl

/-- Whitespace skipping drops a whitespace head. -/
theorem skipWsJ_cons_ws (c : Char) (h : isJsonWs c = true) (l : List Char) :
    skipWsJ (c :: l) = skipWsJ l := by
  simp [skipWsJ, List.dropWhile_cons, h]

/-- Whitespace skipping stops at a non-whitespace head. -/
theorem skipWsJ_cons_nws (c : Char) (h : isJsonWs c = false) (l : List Char) :
    skipWsJ (c :: l) = c :: l := by
  simp [skipWsJ, List.dropWhile_cons, h]

/-- Parsing one dumped indented member recovers its key-value pair. -/
theorem parsePair_entry (k v tail : List Char) :
    parsePair (('\n' :: ' ' :: ' ' :: (encStr k ++ ':' :: ' ' :: encStr v)) ++ tail) =
      some ((k, v), tail) := by
  rw [parsePair]
  rw [List.cons_append, List.cons_append, List.cons_append,
    skipWsJ_cons_ws '\n' rfl, skipWsJ_cons_ws ' ' rfl, skipWsJ_cons_ws ' ' rfl]
  rw [show (encStr k ++ ':' :: ' ' :: encStr v) ++ tail =
      '"' :: (k.flatMap escapeChar ++ '"' :: (':' :: ' ' :: (encStr v ++ tail))) from by
    simp [encStr, List.append_assoc]]
  rw [skipWsJ_cons_nws '"' rfl]
  split
  · rename_i r1 heq
    simp only [List.cons.injEq, true_and] at heq
    subst heq
    rw [parseStrBody_enc]
    try dsimp only
    rw [skipWsJ_cons_nws ':' rfl]
    split
    · rename_i r3 heq2
      simp only [List.cons.injEq, true_and] at heq2
      subst heq2
      rw [skipWsJ_cons_ws ' ' rfl]
      rw [show encStr v ++ tail = '"' :: (v.flatMap escapeChar ++ '"' :: tail) from by
        simp [encStr, List.append_assoc]]
      rw [skipWsJ_cons_nws '"' rfl]
      split
      · rename_i r4 heq3
        simp only [List.cons.injEq, true_and] at heq3
        subst heq3
        rw [parseStrBody_enc]
      · rename_i hno
        exact absurd rfl (hno _)
    · rename_i hno
      exact absurd rfl (hno _)
  · rename_i hno
    exact absurd rfl (hno _)

/-- Parsing the dumped member list recovers the entries and consumes the closing brace. -/
theorem parseMembers_dump (m : List (List Char × List Char)) (fuel : Nat)
    (hne : m ≠ []) (hf : m.length ≤ fuel) :
    parseMembers fuel (dumpEntries m ++ ['\n', '\x7d']) = some (m, []) := by
  induction m generalizing fuel with
  | nil => exact absurd rfl hne
  | cons kv rest ih =>
    obtain ⟨k, v⟩ := kv
    cases fuel with
    | zero => simp at hf
    | succ fuel =>
      cases rest with
      | nil =>
        rw [show dumpEntries [(k, v)] =
            '\n' :: ' ' :: ' ' :: (encStr k ++ ':' :: ' ' :: encStr v) from rfl]
        rw [parseMembers]
        rw [parsePair_entry]
        try dsimp only
        rw [skipWsJ_cons_ws '\n' rfl, skipWsJ_cons_nws '\x7d' rfl]
        split
        · rename_i r2 heq
          simp at heq
        · rename_i r2 heq
          simp only [List.cons.injEq, true_and] at heq
          subst heq
          rfl
        · rename_i hno1 hno2
          exact absurd rfl (hno2 _)
      | cons kv2 rest2 =>
        rw [show dumpEntries ((k, v) :: kv2 :: rest2) ++ ['\n', '\x7d'] =
            ('\n' :: ' ' :: ' ' :: (encStr k ++ ':' :: ' ' :: encStr v)) ++
              (',' :: (dumpEntries (kv2 :: rest2) ++ ['\n', '\x7d'])) from by
          simp [dumpEntries, List.append_assoc]]
        rw [parseMembers]
        rw [parsePair_entry]
        try dsimp only
        rw [skipWsJ_cons_nws ',' rfl]
        split
        · rename_i r2 heq
          simp only [List.cons.injEq, true_and] at heq
          subst heq
          rw [ih fuel (by simp) (by simp at hf ⊢; omega)]
        · rename_i r2 heq
          simp at heq
        · rename_i hno1 hno2
          exact absurd rfl (hno1 _)

/-- The dumped member text is at least as long as the member list. -/
theorem dumpEntries_len (m : List (List Char × List Char)) :
    m.length ≤ (dumpEntries m).length := by
  induction m with
  | nil => simp [dumpEntries]
  | cons kv rest ih =>
    obtain ⟨k, v⟩ := kv
    cases rest with
    | nil => simp [dumpEntries]
    | cons kv2 rest2 =>
      rw [show dumpEntries ((k, v) :: kv2 :: rest2) =
          '\n' :: ' ' :: ' ' :: ((encStr k ++ ':' :: ' ' :: encStr v) ++
            (',' :: dumpEntries (kv2 :: rest2))) from rfl]
      simp only [List.length_cons, List.length_append] at ih ⊢
      omega

/-- After whitespace, the dumped member text starts with the opening quote of the first key. -/
theorem skipWsJ_dumpEntries (k v : List Char) (rest : List (List Char × List Char))
    (tail : List Char) :
    ∃ X, skipWsJ (dumpEntries ((k, v) :: rest) ++ tail) = '"' :: X := by
  cases rest with
  | nil =>
    refine ⟨k.flatMap escapeChar ++ '"' :: (':' :: ' ' :: (encStr v ++ tail)), ?_⟩
    rw [show dumpEntries [(k, v)] =
        '\n' :: ' ' :: ' ' :: (encStr k ++ ':' :: ' ' :: encStr v) from rfl,
      List.cons_append, List.cons_append, List.cons_append,
      skipWsJ_cons_ws '\n' rfl, skipWsJ_cons_ws ' ' rfl, skipWsJ_cons_ws ' ' rfl,
      show (encStr k ++ ':' :: ' ' :: encStr v) ++ tail =
        '"' :: (k.flatMap escapeChar ++ '"' :: (':' :: ' ' :: (encStr v ++ tail))) from by
        simp [encStr, List.append_assoc],
      skipWsJ_cons_nws '"' rfl]
  | cons kv2 rest2 =>
    refine ⟨k.flatMap escapeChar ++ '"' ::
      (':' :: ' ' :: (encStr v ++ ',' :: (dumpEntries (kv2 :: rest2) ++ tail))), ?_⟩
    rw [show dumpEntries ((k, v) :: kv2 :: rest2) ++ tail =
        '\n' :: ' ' :: ' ' :: ((encStr k ++ ':' :: ' ' :: encStr v) ++
          (',' :: (dumpEntries (kv2 :: rest2) ++ tail))) from by
      simp [dumpEntries, List.append_assoc],
      skipWsJ_cons_ws '\n' rfl, skipWsJ_cons_ws ' ' rfl, skipWsJ_cons_ws ' ' rfl,
      show (encStr k ++ ':' :: ' ' :: encStr v) ++ (',' :: (dumpEntries (kv2 :: rest2) ++ tail)) =
        '"' :: (k.flatMap escapeChar ++ '"' ::
          (':' :: ' ' :: (encStr v ++ ',' :: (dumpEntries (kv2 :: rest2) ++ tail)))) from by
        simp [encStr, List.append_assoc],
      skipWsJ_cons_nws '"' rfl]

/-- Parsing a dumped ledger object recovers the entry list. -/
theorem parseLedgerObj_dump (m : List (List Char × List Char)) :
    parseLedgerObj (dumpLedgerL m) = some m := by
  cases m with
  | nil => rfl
  | cons kv rest =>
    obtain ⟨k, v⟩ := kv
    rw [show dumpLedgerL ((k, v) :: rest) =
        '\x7b' :: (dumpEntries ((k, v) :: rest) ++ ['\n', '\x7d']) from rfl]
    rw [parseLedgerObj]
    rw [skipWsJ_cons_nws '\x7b' rfl]
    split
    · rename_i r heq
      simp only [List.cons.injEq, true_and] at heq
      subst heq
      obtain ⟨X, hX⟩ := skipWsJ_dumpEntries k v rest ['\n', '\x7d']
      rw [hX]
      split
      · rename_i r2 heq2
        simp at heq2
      · rw [parseMembers_dump ((k, v) :: rest) _ (by simp) ?_]
        · rfl
        · calc ((k, v) :: rest).length ≤ (dumpEntries ((k, v) :: rest)).length :=
              dumpEntries_len _
            _ ≤ ('\x7b' :: (dumpEntries ((k, v) :: rest) ++ ['\n', '\x7d'])).length := by
              simp
              omega
    · rename_i hno
      exact absurd rfl (hno _)

/-- Dict assignment with a fresh key appends the pair. -/
theorem dictSet_notMem (acc : List (String × String)) (k v : String)
    (h : k ∉ acc.map Prod.fst) :
    dictSet acc k v = acc ++ [(k, v)] := by
  induction acc with
  | nil => rfl
  | cons kv rest ih =>
    obtain ⟨k0, v0⟩ := kv
    simp only [List.map_cons, List.mem_cons, not_or] at h
    rw [dictSet, if_neg (fun he => h.1 he.symm), ih h.2]
    rfl

/-- Folding dict assignment over pairwise-distinct keys rebuilds the list. -/
theorem foldl_dictSet (m : List (String × String)) :
    ∀ acc : List (String × String), (m.map Prod.fst).Nodup →
      (∀ x ∈ m.map Prod.fst, x ∉ acc.map Prod.fst) →
      m.foldl (fun a kv => dictSet a kv.1 kv.2) acc = acc ++ m := by
  induction m with
  | nil => intro acc _ _; simp
  | cons kv rest ih =>
    intro acc hnd hdisj
    obtain ⟨k, v⟩ := kv
    rw [List.map_cons] at hnd
    obtain ⟨hk, hnd2⟩ := List.nodup_cons.mp hnd
    rw [List.foldl_cons]
    rw [dictSet_notMem acc k v (hdisj k (by simp))]
    rw [ih (acc ++ [(k, v)]) hnd2 ?_]
    · simp
    · intro x hx hmem
      rw [List.map_append, List.mem_append] at hmem
      rcases hmem with hm | hm
      · exact hdisj x (by simp [hx]) hm
      · simp only [List.map_cons, List.map_nil, List.mem_singleton] at hm
        subst hm
        exact hk hx

/-- Claim C8: for every ledger mapping with distinct keys, saving the
ledger and loading it back yields an identical mapping. The distinct-key
hypothesis reflects the ledger dict: a Python dict cannot hold a repeated
key, so every mapping the program saves satisfies it. -/
theorem C8_roundtrip (m : List (String × String))
    (hnd : (m.map Prod.fst).Nodup) :
    load_upload_log (save_upload_log m) = some m := by
  unfold load_upload_log save_upload_log
  rw [show (String.mk (dumpLedgerL (m.map fun kv => (kv.1.toList, kv.2.toList)))).toList =
      dumpLedgerL (m.map fun kv => (kv.1.toList, kv.2.toList)) from rfl]
  rw [parseLedgerObj_dump]
  rw [show ∀ (f : List (List Char × List Char) → List (String × String))
      (x : List (List Char × List Char)), Option.map f (some x) = some (f x) from
    fun f x => rfl]
  rw [List.foldl_map]
  rw [show (fun (acc : List (String × String)) (kv : String × String) =>
      dictSet acc ⟨kv.1.toList⟩ ⟨kv.2.toList⟩) = fun acc kv => dictSet acc kv.1 kv.2 from rfl]
  rw [foldl_dictSet m [] hnd (by simp)]
  simp

/-- Claim C8 witness: a concrete two-entry ledger with distinct keys
round-trips through save and load. -/
theorem C8_witness :
    (([("Meeting 20260203", "https://youtu.be/abc"),
        ("Other", "https://youtu.be/xyz")].map Prod.fst).Nodup ∧
      load_upload_log (save_upload_log
          [("Meeting 20260203", "https://youtu.be/abc"),
           ("Other", "https://youtu.be/xyz")]) =
        some [("Meeting 20260203", "https://youtu.be/abc"),
          ("Other", "https://youtu.be/xyz")]) :=
  ⟨by decide, C8_roundtrip _ (by decide)⟩

end ZYU
